import Mathlib

/-
Verification of the vote aggregation and consistency subsystem of the
senkyo-yotei repository.

The embedding follows the source:
  - src/functions/src/index.ts : the aggregateVotes trigger (diff
    computation over the before/after images of a votes document, and the
    per-election transactional rewrite of the electionResults document).
  - the vote service (voteService.submitVote, voteService.cancelVote) and
    the dislike service (dislikeService.toggleDislike), the transactional
    mutators of the per-user votes document.

Modelling conventions:
  - Firestore maps (JS objects) become association lists
    (List (String × _)) with first-match lookup; JS object key update
    keeps insertion order for existing keys and appends new keys, which
    setKey mirrors; JS delete removes the key, which eraseKey mirrors.
  - JS numbers holding counters become Int (the code works with integer
    deltas and explicitly clamps below 0); percentages become Rat, with
    Math.round embedded as jsRound q = ⌊q + 1/2⌋, exact on the rationals.
  - undefined-vs-present string fields become Option String; JS truthiness
    of a string field (empty string is falsy) is the function truthy.
  - Timestamps become Nat parameters (the diff computation never reads
    them); the serverTimestamp lastUpdated field of the written
    electionResults document is not modelled, no claim mentions it.
  - Set<string> iteration order in JS is first-insertion order, which
    dedupFirst mirrors.
-/

/-- One value of the per-election entry of a votes document
(ElectionChoice in the frontend types): the chosen candidate (absent
means no active vote), the disliked candidate ids, and timestamps. -/
structure ElectionChoice where
  candidateId : Option String
  dislikedCandidates : List String
  createdAt : Nat
  updatedAt : Nat
deriving DecidableEq, Repr

/-- A votes/{userId} document: the sparse elections map. -/
structure VoteDoc where
  elections : List (String × ElectionChoice)
deriving DecidableEq, Repr

/-- Per-candidate entry of an electionResults document. dislikeCount and
dislikePercentage are present only when the dislike count is positive,
as in the written document. -/
structure CandidateResult where
  count : Int
  percentage : Rat
  dislikeCount : Option Int
  dislikePercentage : Option Rat
deriving DecidableEq, Repr

/-- An electionResults/{electionId} document (lastUpdated omitted, see
header comment). -/
structure ElectionResult where
  electionId : String
  totalVotes : Int
  totalDislikeMarks : Int
  candidates : List (String × CandidateResult)
deriving DecidableEq, Repr

/-- First-match lookup in an association list, like reading a key of a JS
object. -/
def lookupKV {β : Type} : List (String × β) → String → Option β
  | [], _ => none
  | p :: rest, k => if p.1 = k then some p.2 else lookupKV rest k

/-- Lookup with a default of 0, like (obj[k] or an absent key read as 0). -/
def lookupD (m : List (String × Int)) (k : String) : Int :=
  (lookupKV m k).getD 0

/-- JS object key assignment: overwrite in place when the key exists,
append otherwise. -/
def setKey {β : Type} (m : List (String × β)) (k : String) (v : β) : List (String × β) :=
  if m.any (fun p => p.1 = k) then m.map (fun p => if p.1 = k then (k, v) else p)
  else m ++ [(k, v)]

/-- JS delete obj[k]. -/
def eraseKey {β : Type} (m : List (String × β)) (k : String) : List (String × β) :=
  m.filter (fun p => p.1 ≠ k)

/-- Keeps the first occurrence of every element: the iteration order of a
JS Set built by insertion. -/
def dedupFirstAux : List String → List String → List String
  | _, [] => []
  | seen, a :: rest =>
    if seen.contains a then dedupFirstAux seen rest
    else a :: dedupFirstAux (a :: seen) rest

/-- Deduplication keeping first occurrences. -/
def dedupFirst (l : List String) : List String := dedupFirstAux [] l

/-- JS truthiness of a string-or-undefined value: undefined and the empty
string are falsy. -/
def truthy : Option String → Bool
  | none => false
  | some s => !(s == "")

/-- Math.round, exact over the rationals (round half toward positive
infinity). -/
def jsRound (q : Rat) : Int := ⌊q + (1 : Rat)/2⌋

/-- percentage: totalVotes > 0 ? Math.round((count / totalVotes) * 1000) / 10 : 0. -/
def pctOf (count tv : Int) : Rat :=
  if 0 < tv then ((jsRound (((count : Rat) / (tv : Rat)) * 1000) : Int) : Rat) / 10 else 0

/-- One affected election extracted by the diff computation of
aggregateVotes. -/
structure Change where
  electionId : String
  beforeCandidate : Option String
  afterCandidate : Option String
  beforeDislikes : List String
  afterDislikes : List String
deriving DecidableEq, Repr

/-- The elections map of an optional votes document (absent document read
as an empty map, as beforeVotes?.elections or {} does). -/
def electionsOf : Option VoteDoc → List (String × ElectionChoice)
  | none => []
  | some d => d.elections

/-- beforeElections[id]?.candidateId. -/
def candidateOf (es : List (String × ElectionChoice)) (id : String) : Option String :=
  (lookupKV es id).bind (fun e => e.candidateId)

/-- beforeElections[id]?.dislikedCandidates, an absent entry read as []. -/
def dislikesOf (es : List (String × ElectionChoice)) (id : String) : List String :=
  ((lookupKV es id).map (fun e => e.dislikedCandidates)).getD []

/-- The dislikeChanged test: lengths differ, or an element of either list
is missing from the other. -/
def dislikesDiffer (bd ad : List String) : Bool :=
  bd.length != ad.length
    || bd.any (fun d => !(ad.contains d))
    || ad.any (fun d => !(bd.contains d))

/-- The diff computation of aggregateVotes: for every election id in
either image, the election is affected iff the candidate changed or the
dislike sets differ. -/
def computeAffected (be ae : List (String × ElectionChoice)) : List Change :=
  (dedupFirst (be.map Prod.fst ++ ae.map Prod.fst)).filterMap (fun id =>
    let b := candidateOf be id
    let a := candidateOf ae id
    let bd := dislikesOf be id
    let ad := dislikesOf ae id
    if b ≠ a ∨ dislikesDiffer bd ad then some ⟨id, b, a, bd, ad⟩ else none)

/-- The record synthesized when no electionResults document exists. -/
def emptyResult (eid : String) : ElectionResult :=
  { electionId := eid, totalVotes := 0, totalDislikeMarks := 0, candidates := [] }

/-- The stored record the transaction starts from. -/
def storedData (ch : Change) (stored : Option ElectionResult) : ElectionResult :=
  stored.getD (emptyResult ch.electionId)

/-- Working vote counters reconstructed from the stored record
(cid ↦ v.count). -/
def reconCounts (r : ElectionResult) : List (String × Int) :=
  r.candidates.map (fun p => (p.1, p.2.count))

/-- Working dislike counters reconstructed from the stored record
(cid ↦ v.dislikeCount or 0). -/
def reconDislikes (r : ElectionResult) : List (String × Int) :=
  r.candidates.map (fun p => (p.1, p.2.dislikeCount.getD 0))

/-- The guarded decrement of the before-candidate count:
if (counts[k]) { counts[k] -= 1; if (counts[k] <= 0) delete counts[k]; }. -/
def decEntry (m : List (String × Int)) (k : String) : List (String × Int) :=
  if lookupD m k ≠ 0 then
    (if lookupD m k - 1 ≤ 0 then eraseKey m k else setKey m k (lookupD m k - 1))
  else m

/-- The four vote-delta blocks of aggregateVotes, producing the updated
counters and totalVotes. -/
def voteDelta (bc ac : Option String) (counts : List (String × Int)) (tv : Int) :
    List (String × Int) × Int :=
  let step1counts := if truthy bc ∧ bc ≠ ac then decEntry counts (bc.getD "") else counts
  let step1tv :=
    if truthy bc ∧ bc ≠ ac then (if ¬ truthy ac then tv - 1 else tv) else tv
  let step2tv := if ¬ truthy bc ∧ truthy ac then step1tv + 1 else step1tv
  let step2counts :=
    if truthy ac ∧ bc ≠ ac then
      setKey step1counts (ac.getD "") (lookupD step1counts (ac.getD "") + 1)
    else step1counts
  (step2counts, step2tv)

/-- The added-dislikes loop: each added id increments its counter and
totalDislikeMarks. -/
def applyAdds (adds : List String) (st : List (String × Int) × Int) :
    List (String × Int) × Int :=
  adds.foldl (fun st cid => (setKey st.1 cid (lookupD st.1 cid + 1), st.2 + 1)) st

/-- The removed-dislikes loop: each removed id decrements its counter and
totalDislikeMarks, but only when the current counter is truthy (nonzero);
a counter reaching 0 or below is deleted. -/
def applyRemoves (rems : List String) (st : List (String × Int) × Int) :
    List (String × Int) × Int :=
  rems.foldl (fun st cid =>
    if lookupD st.1 cid ≠ 0 then
      ((if lookupD st.1 cid - 1 ≤ 0 then eraseKey st.1 cid
        else setKey st.1 cid (lookupD st.1 cid - 1)), st.2 - 1)
    else st) st

/-- beforeDislikes.filter(d => !afterDislikes.includes(d)). -/
def removedOf (ch : Change) : List String :=
  ch.beforeDislikes.filter (fun d => !(ch.afterDislikes.contains d))

/-- afterDislikes.filter(d => !beforeDislikes.includes(d)). -/
def addedOf (ch : Change) : List String :=
  ch.afterDislikes.filter (fun d => !(ch.beforeDislikes.contains d))

/-- Vote counters after the vote delta. -/
def countsAfter (ch : Change) (stored : Option ElectionResult) : List (String × Int) :=
  (voteDelta ch.beforeCandidate ch.afterCandidate
    (reconCounts (storedData ch stored)) (storedData ch stored).totalVotes).1

/-- totalVotes after the vote delta, before the clamp. -/
def tvAfter (ch : Change) (stored : Option ElectionResult) : Int :=
  (voteDelta ch.beforeCandidate ch.afterCandidate
    (reconCounts (storedData ch stored)) (storedData ch stored).totalVotes).2

/-- Dislike counters and totalDislikeMarks after the dislike delta,
before the clamp. -/
def dislikeStateAfter (ch : Change) (stored : Option ElectionResult) :
    List (String × Int) × Int :=
  applyRemoves (removedOf ch)
    (applyAdds (addedOf ch)
      (reconDislikes (storedData ch stored), (storedData ch stored).totalDislikeMarks))

/-- Dislike counters after the dislike delta. -/
def dsAfter (ch : Change) (stored : Option ElectionResult) : List (String × Int) :=
  (dislikeStateAfter ch stored).1

/-- totalDislikeMarks after the dislike delta, before the clamp. -/
def tdmAfter (ch : Change) (stored : Option ElectionResult) : Int :=
  (dislikeStateAfter ch stored).2

/-- The defensive floor on totalVotes. -/
def tvFinal (ch : Change) (stored : Option ElectionResult) : Int :=
  if tvAfter ch stored < 0 then 0 else tvAfter ch stored

/-- The defensive floor on totalDislikeMarks. -/
def tdmFinal (ch : Change) (stored : Option ElectionResult) : Int :=
  if tdmAfter ch stored < 0 then 0 else tdmAfter ch stored

/-- One step of the zero-fill loop over the fetched roster: an id not yet
in the id set is appended, and its two counters are set to 0 when the key
is absent (the === undefined tests). -/
def zeroFillStep (st : List String × List (String × Int) × List (String × Int))
    (d : String) : List String × List (String × Int) × List (String × Int) :=
  if st.1.contains d then st
  else (st.1 ++ [d],
        (if (lookupKV st.2.1 d).isNone then st.2.1 ++ [(d, 0)] else st.2.1),
        (if (lookupKV st.2.2 d).isNone then st.2.2 ++ [(d, 0)] else st.2.2))

/-- The candidate id set and counters after zero-fill. The roster fetch
outcome is a parameter: none models the registry read throwing (the catch
branch only logs, so the state is left as built from the counters), some
ids models a successful fetch. -/
def zeroFill (roster : Option (List String)) (cs ds : List (String × Int)) :
    List String × List (String × Int) × List (String × Int) :=
  let al0 := dedupFirst (cs.map Prod.fst ++ ds.map Prod.fst)
  match roster with
  | none => (al0, cs, ds)
  | some ids => ids.foldl zeroFillStep (al0, cs, ds)

/-- The id set and counters the written record is built from. -/
def zfOf (ch : Change) (roster : Option (List String)) (stored : Option ElectionResult) :
    List String × List (String × Int) × List (String × Int) :=
  zeroFill roster (countsAfter ch stored) (dsAfter ch stored)

/-- One written candidate entry: count (or 0), percentage from the final
totals, dislikeCount/dislikePercentage only when the dislike counter is
positive. -/
def buildEntry (cs ds : List (String × Int)) (tv tdm : Int) (cid : String) :
    CandidateResult :=
  let count := lookupD cs cid
  let dcount := lookupD ds cid
  { count := count
    percentage := pctOf count tv
    dislikeCount := if 0 < dcount then some dcount else none
    dislikePercentage :=
      if 0 < dcount then
        some (if 0 < tdm then ((jsRound (((dcount : Rat) / (tdm : Rat)) * 1000) : Int) : Rat) / 10 else 0)
      else none }

/-- The per-affected-election transaction body of aggregateVotes: read
the stored record (or synthesize), apply the vote and dislike deltas,
clamp the totals, zero-fill from the roster, rebuild every candidate
entry from the final totals, and overwrite the record. -/
def applyChange (ch : Change) (roster : Option (List String))
    (stored : Option ElectionResult) : ElectionResult :=
  { electionId := ch.electionId
    totalVotes := tvFinal ch stored
    totalDislikeMarks := tdmFinal ch stored
    candidates := (zfOf ch roster stored).1.map (fun cid =>
      (cid, buildEntry (zfOf ch roster stored).2.1 (zfOf ch roster stored).2.2
        (tvFinal ch stored) (tdmFinal ch stored) cid)) }

/-- The whole trigger invocation: diff the two images, then run the
per-election transaction for each affected election in order, each one
reading the current result store and writing its election's record.
rosterOf gives the roster fetch outcome per election. -/
def runPass (bef aft : Option VoteDoc) (rosterOf : String → Option (List String))
    (results : String → Option ElectionResult) : String → Option ElectionResult :=
  (computeAffected (electionsOf bef) (electionsOf aft)).foldl
    (fun res ch => fun e =>
      if e = ch.electionId then some (applyChange ch (rosterOf ch.electionId) (res ch.electionId))
      else res e)
    results

/-- voteService.submitVote transaction body: set candidateId, drop the
voted candidate from the dislike list, keep createdAt when the entry
existed, stamp updatedAt, write the full entry back. -/
def submitVoteFn (election candidate : String) (now : Nat)
    (doc : Option VoteDoc) : VoteDoc :=
  let elections := electionsOf doc
  let prev := lookupKV elections election
  let cleaned := ((prev.map (fun e => e.dislikedCandidates)).getD []).filter
    (fun id => !(id == candidate))
  ⟨setKey elections election
    { candidateId := some candidate
      dislikedCandidates := cleaned
      createdAt := ((prev.map (fun e => e.createdAt)).getD now)
      updatedAt := now }⟩

/-- voteService.cancelVote transaction body: absent document is a no-op
(the transaction returns before writing); an entry with a non-empty
dislike list is kept without candidateId; otherwise the entry is deleted;
the elections map is written back. -/
def cancelVoteFn (election : String) (now : Nat) :
    Option VoteDoc → Option VoteDoc
  | none => none
  | some doc =>
    match lookupKV doc.elections election with
    | none => some ⟨doc.elections⟩
    | some entry =>
      if entry.dislikedCandidates ≠ [] then
        some ⟨setKey doc.elections election
          { candidateId := none
            dislikedCandidates := entry.dislikedCandidates
            createdAt := entry.createdAt
            updatedAt := now }⟩
      else some ⟨eraseKey doc.elections election⟩

/-- dislikeService.toggleDislike transaction body: synthesize the entry
when absent; refuse (return without writing) when the current pick equals
the candidate; otherwise flip membership in the dislike list (splice
removes the first occurrence) and write the entry back. -/
def toggleDislikeFn (election candidate : String) (now : Nat)
    (doc : Option VoteDoc) : Option VoteDoc :=
  let elections := electionsOf doc
  let current := (lookupKV elections election).getD
    { candidateId := none, dislikedCandidates := [], createdAt := now, updatedAt := now }
  if current.candidateId = some candidate then doc
  else
    let list := current.dislikedCandidates
    let list2 := if list.contains candidate then list.erase candidate else list ++ [candidate]
    some ⟨setKey elections election
      { candidateId := current.candidateId
        dislikedCandidates := list2
        createdAt := current.createdAt
        updatedAt := now }⟩

/-- A mutator invocation on one user's votes document. -/
inductive MutOp where
  | submit (election candidate : String) (now : Nat)
  | cancel (election : String) (now : Nat)
  | toggle (election candidate : String) (now : Nat)
deriving DecidableEq, Repr

/-- Apply one mutator to the document. -/
def applyMutOp (op : MutOp) (d : Option VoteDoc) : Option VoteDoc :=
  match op with
  | .submit e c now => some (submitVoteFn e c now d)
  | .cancel e now => cancelVoteFn e now d
  | .toggle e c now => toggleDislikeFn e c now d

/-- Apply a sequence of mutators to the document. -/
def applyMutOps (ops : List MutOp) (d : Option VoteDoc) : Option VoteDoc :=
  ops.foldl (fun d op => applyMutOp op d) d

/-- The per-election entry of an optional document. -/
def entryOfOpt (d : Option VoteDoc) (e : String) : Option ElectionChoice :=
  lookupKV (electionsOf d) e

/-- The mutual-exclusion invariant: no stored entry's candidateId is a
member of its dislike list. -/
def mutualExclusive (d : Option VoteDoc) : Prop :=
  ∀ e entry, entryOfOpt d e = some entry →
    ∀ c, entry.candidateId = some c → c ∉ entry.dislikedCandidates

/-- A submit-vote or cancel-vote action for the conservation system. -/
inductive VoteAct where
  | submit (candidate : String) (now : Nat)
  | cancel (now : Nat)
deriving DecidableEq, Repr

/-- One system operation: a user acting on the tracked election, with the
roster fetch outcome the triggered aggregation pass will see. -/
structure SysOp where
  user : String
  act : VoteAct
  roster : Option (List String)

/-- The system state: the votes store and the results store. -/
structure SysState where
  votes : String → Option VoteDoc
  results : String → Option ElectionResult

/-- Both stores empty. -/
def initSys : SysState := ⟨fun _ => none, fun _ => none⟩

/-- Apply a vote action to a user's document for election E. -/
def applyVoteAct (E : String) (a : VoteAct) (d : Option VoteDoc) : Option VoteDoc :=
  match a with
  | .submit c now => some (submitVoteFn E c now d)
  | .cancel now => cancelVoteFn E now d

/-- One system step: the user's transactional mutation fires the trigger
with the before/after images, and the aggregation engine processes every
affected election. -/
def sysStep (E : String) (st : SysState) (op : SysOp) : SysState :=
  let bef := st.votes op.user
  let aft := applyVoteAct E op.act bef
  { votes := fun u => if u = op.user then aft else st.votes u
    results := runPass bef aft (fun _ => op.roster) st.results }

/-- Run a sequence of system operations from the empty stores. -/
def sysRun (E : String) (ops : List SysOp) : SysState :=
  ops.foldl (sysStep E) initSys

/-- A submitted candidate id is a Firestore document id, hence nonempty. -/
def actOK : VoteAct → Bool
  | .submit c _ => !(c == "")
  | .cancel _ => true

/-- The user's current pick for election E. -/
def userCand (st : SysState) (E u : String) : Option String :=
  candidateOf (electionsOf (st.votes u)) E

/-- Number of listed users currently choosing candidate c in election E. -/
def countFor (st : SysState) (E : String) (users : List String) (c : String) : Nat :=
  users.countP (fun u => userCand st E u == some c)

/-- Number of listed users whose candidateId for election E is set. -/
def countSet (st : SysState) (E : String) (users : List String) : Nat :=
  users.countP (fun u => (userCand st E u).isSome)

/-- The count stored for candidate c (an absent record or entry reads 0). -/
def resCount (s : Option ElectionResult) (c : String) : Int :=
  match s with
  | none => 0
  | some r => ((lookupKV r.candidates c).map (fun e => e.count)).getD 0

/-- The stored totalVotes (an absent record reads 0). -/
def resTotal (s : Option ElectionResult) : Int :=
  (s.map (fun r => r.totalVotes)).getD 0

/-- The dislike count stored for candidate c (an absent record, entry or
field reads 0). -/
def resDislikeVal (r : ElectionResult) (c : String) : Int :=
  (((lookupKV r.candidates c).bind (fun e => e.dislikeCount)).getD 0)

/-- Candidate ids known without the roster: the keys of the two counter
maps after the deltas, in first-insertion order. -/
def knownIds (ch : Change) (stored : Option ElectionResult) : List String :=
  dedupFirst ((countsAfter ch stored).map Prod.fst ++ (dsAfter ch stored).map Prod.fst)

/-- Nonnegativity of the counters of a stored record. -/
def storedCountsNonneg (stored : Option ElectionResult) : Prop :=
  ∀ r, stored = some r → ∀ p ∈ r.candidates, 0 ≤ p.2.count ∧ 0 ≤ p.2.dislikeCount.getD 0

/-- Nonnegativity of everything the claims constrain in a written record. -/
def resultNonneg (r : ElectionResult) : Prop :=
  0 ≤ r.totalVotes ∧ 0 ≤ r.totalDislikeMarks ∧
    ∀ p ∈ r.candidates, 0 ≤ p.2.count ∧ ∀ k, p.2.dislikeCount = some k → 0 ≤ k

/-- Every counter readable from the map is nonnegative. -/
def looksNonneg (m : List (String × Int)) : Prop :=
  ∀ k, 0 ≤ lookupD m k

/-- Shape of a user's votes document reachable by submit/cancel
operations on one election E from an absent document: absent, an empty
elections map, or a single entry for E holding a nonempty candidate id
and no dislikes. -/
def docOK (E : String) (d : Option VoteDoc) : Prop :=
  match d with
  | none => True
  | some doc => doc.elections = [] ∨
      ∃ c cr up, c ≠ "" ∧ doc.elections = [(E, ⟨some c, [], cr, up⟩)]

/-- The conservation invariant: every reachable document has the simple
shape, stored totalVotes counts the users with a set candidateId, and
every stored candidate count counts the users choosing that candidate. -/
def sysInv (E : String) (users : List String) (st : SysState) : Prop :=
  (∀ u, docOK E (st.votes u)) ∧
  resTotal (st.results E) = (countSet st E users : Int) ∧
  (∀ c, resCount (st.results E) c = (countFor st E users c : Int))

/-- Concrete stored record with two votes split 1/1 between A and B. -/
def exR2 : ElectionResult :=
  ⟨"e1", 2, 0, [("A", ⟨1, 50, none, none⟩), ("B", ⟨1, 50, none, none⟩)]⟩

/-- Concrete change: a third user newly votes for C. -/
def exChC : Change := ⟨"e1", none, some "C", [], []⟩

/-- Concrete change: a user cancels a vote for A. -/
def exCh7 : Change := ⟨"e1", some "A", none, [], []⟩

/-- Concrete stored record with a drifted totalDislikeMarks of 5 and no
candidate entries. -/
def exR5 : ElectionResult := ⟨"e1", 0, 5, []⟩

/-- Concrete change removing the dislike mark on d. -/
def exCh5 : Change := ⟨"e1", none, none, ["d"], []⟩

/-- Concrete user list for the conservation witness. -/
def exUsers : List String := ["u1", "u2"]

/-- Concrete operation sequence for the conservation witness: u1 votes A,
u2 votes B, u1 switches to B, u1 cancels. -/
def exOps : List SysOp :=
  [⟨"u1", VoteAct.submit "A" 0, none⟩,
   ⟨"u2", VoteAct.submit "B" 1, some ["A", "B"]⟩,
   ⟨"u1", VoteAct.submit "B" 2, none⟩,
   ⟨"u1", VoteAct.cancel 3, none⟩]

/-- Lookup distributes over append: the left list wins. -/
theorem lookupKV_append {β : Type} (m m2 : List (String × β)) (x : String) :
    lookupKV (m ++ m2) x =
      (match lookupKV m x with
       | some v => some v
       | none => lookupKV m2 x) := by
  induction m with
  | nil => simp [lookupKV]
  | cons p rest ih =>
    by_cases h : p.1 = x
    · simp [lookupKV, h]
    · simp [lookupKV, h, ih]

/-- A list with no pair keyed k has no lookup result at k. -/
theorem lookupKV_eq_none_of_any_eq_false {β : Type} (m : List (String × β)) (k : String)
    (h : m.any (fun p => p.1 = k) = false) : lookupKV m k = none := by
  induction m with
  | nil => simp [lookupKV]
  | cons p rest ih =>
    simp only [List.any_cons, Bool.or_eq_false_iff, decide_eq_false_iff_not] at h
    simp [lookupKV, h.1, ih h.2]

/-- The in-place overwrite does not change lookups at other keys. -/
theorem lookupKV_map_upd_ne {β : Type} (m : List (String × β)) (k x : String) (v : β)
    (hx : x ≠ k) :
    lookupKV (m.map (fun p => if p.1 = k then (k, v) else p)) x = lookupKV m x := by
  induction m with
  | nil => simp [lookupKV]
  | cons p rest ih =>
    by_cases h : p.1 = k
    · have : k ≠ x := fun hk => hx hk.symm
      simp [lookupKV, h, this, ih]
    · by_cases h2 : p.1 = x
      · simp [lookupKV, h, h2, hx]
      · simp [lookupKV, h, h2, ih]

/-- When the key occurs, the in-place overwrite is seen by lookup. -/
theorem lookupKV_map_upd_self {β : Type} (m : List (String × β)) (k : String) (v : β)
    (h : m.any (fun p => p.1 = k) = true) :
    lookupKV (m.map (fun p => if p.1 = k then (k, v) else p)) k = some v := by
  induction m with
  | nil => simp at h
  | cons p rest ih =>
    by_cases hp : p.1 = k
    · simp [lookupKV, hp]
    · simp only [List.any_cons, Bool.or_eq_true, decide_eq_true_eq] at h
      rcases h with h | h
      · exact absurd h hp
      · simp [lookupKV, hp, ih h]

/-- Full characterization of lookup after setKey. -/
theorem lookupKV_setKey {β : Type} (m : List (String × β)) (k : String) (v : β) (x : String) :
    lookupKV (setKey m k v) x = if x = k then some v else lookupKV m x := by
  unfold setKey
  by_cases hany : m.any (fun p => p.1 = k) = true
  · rw [if_pos hany]
    by_cases hx : x = k
    · subst hx; rw [if_pos rfl, lookupKV_map_upd_self m x v hany]
    · rw [if_neg hx, lookupKV_map_upd_ne m k x v hx]
  · rw [if_neg hany, lookupKV_append]
    have hnone := lookupKV_eq_none_of_any_eq_false m k (Bool.eq_false_iff.mpr hany)
    by_cases hx : x = k
    · subst hx; rw [hnone, if_pos rfl]; simp [lookupKV]
    · rw [if_neg hx]
      have : k ≠ x := fun hk => hx hk.symm
      cases h : lookupKV m x <;> simp [lookupKV, this]

/-- Full characterization of lookup after eraseKey. -/
theorem lookupKV_eraseKey {β : Type} (m : List (String × β)) (k x : String) :
    lookupKV (eraseKey m k) x = if x = k then none else lookupKV m x := by
  induction m with
  | nil => simp [eraseKey, lookupKV]
  | cons p rest ih =>
    have hrest : List.filter (fun q => decide (q.1 ≠ k)) rest = eraseKey rest k := rfl
    rw [eraseKey, List.filter_cons]
    by_cases hp : p.1 = k
    · rw [if_neg (by simp [hp]), hrest, ih]
      by_cases hx : x = k
      · simp [hx]
      · have hpx : p.1 ≠ x := by rw [hp]; exact fun hk => hx hk.symm
        simp [lookupKV, hpx, hx]
    · rw [if_pos (by simp [hp])]
      by_cases hpx : p.1 = x
      · have hx : x ≠ k := by rw [← hpx]; exact hp
        simp [lookupKV, hpx, hx]
      · simp only [lookupKV, hpx, if_false]
        rw [hrest, ih]

/-- lookupD after setKey. -/
theorem lookupD_setKey (m : List (String × Int)) (k : String) (v : Int) (x : String) :
    lookupD (setKey m k v) x = if x = k then v else lookupD m x := by
  unfold lookupD
  rw [lookupKV_setKey]
  by_cases hx : x = k <;> simp [hx]

/-- lookupD after eraseKey. -/
theorem lookupD_eraseKey (m : List (String × Int)) (k x : String) :
    lookupD (eraseKey m k) x = if x = k then 0 else lookupD m x := by
  unfold lookupD
  rw [lookupKV_eraseKey]
  by_cases hx : x = k <;> simp [hx]

/-- The guarded decrement, viewed through lookupD, when the counter is at
least 1. -/
theorem lookupD_decEntry_of_pos (m : List (String × Int)) (k : String)
    (h : 1 ≤ lookupD m k) (x : String) :
    lookupD (decEntry m k) x = if x = k then lookupD m k - 1 else lookupD m x := by
  unfold decEntry
  have hne : lookupD m k ≠ 0 := by omega
  rw [if_pos hne]
  by_cases hz : lookupD m k - 1 ≤ 0
  · rw [if_pos hz, lookupD_eraseKey]
    by_cases hx : x = k
    · simp [hx]; omega
    · simp [hx]
  · rw [if_neg hz, lookupD_setKey]

/-- The guarded decrement leaves other keys alone, unconditionally. -/
theorem lookupD_decEntry_ne (m : List (String × Int)) (k x : String) (hx : x ≠ k) :
    lookupD (decEntry m k) x = lookupD m x := by
  unfold decEntry
  by_cases hne : lookupD m k ≠ 0
  · rw [if_pos hne]
    by_cases hz : lookupD m k - 1 ≤ 0
    · rw [if_pos hz, lookupD_eraseKey, if_neg hx]
    · rw [if_neg hz, lookupD_setKey, if_neg hx]
  · rw [if_neg hne]

/-- Membership in the dedup helper. -/
theorem mem_dedupFirstAux (l : List String) :
    ∀ seen x, x ∈ dedupFirstAux seen l ↔ x ∈ l ∧ x ∉ seen := by
  induction l with
  | nil => intro seen x; simp [dedupFirstAux]
  | cons a rest ih =>
    intro seen x
    by_cases ha : seen.contains a
    · rw [dedupFirstAux, if_pos ha, ih]
      simp only [List.mem_cons]
      have ha2 : a ∈ seen := by simpa using ha
      constructor
      · rintro ⟨h1, h2⟩; exact ⟨Or.inr h1, h2⟩
      · rintro ⟨h1 | h1, h2⟩
        · subst h1; exact absurd ha2 h2
        · exact ⟨h1, h2⟩
    · rw [dedupFirstAux, if_neg ha]
      have ha2 : a ∉ seen := by simpa using ha
      simp only [List.mem_cons, ih]
      constructor
      · rintro (rfl | ⟨h1, h2⟩)
        · exact ⟨Or.inl rfl, ha2⟩
        · constructor
          · exact Or.inr h1
          · intro hc; exact h2 (Or.inr hc)
      · rintro ⟨rfl | h1, h2⟩
        · exact Or.inl rfl
        · by_cases hxa : x = a
          · exact Or.inl hxa
          · refine Or.inr ⟨h1, ?_⟩
            simp only [List.mem_cons, not_or]
            exact ⟨hxa, h2⟩

/-- dedupFirst preserves membership. -/
theorem mem_dedupFirst (l : List String) (x : String) :
    x ∈ dedupFirst l ↔ x ∈ l := by
  rw [dedupFirst, mem_dedupFirstAux]; simp

/-- Lookup into a keyed map built over an id list. -/
theorem lookupKV_keyed_map {β : Type} (al : List String) (f : String → β) (x : String) :
    lookupKV (al.map (fun c => (c, f c))) x =
      if x ∈ al then some (f x) else none := by
  induction al with
  | nil => simp [lookupKV]
  | cons a rest ih =>
    by_cases ha : a = x
    · subst ha; simp [lookupKV, ih]
    · have hxa : x ≠ a := fun h => ha h.symm
      simp [lookupKV, ha, hxa, ih]

/-- A key with a lookup result is among the keys. -/
theorem mem_keys_of_lookupKV_isSome {β : Type} (m : List (String × β)) (k : String)
    (h : (lookupKV m k).isSome) : k ∈ m.map Prod.fst := by
  induction m with
  | nil => simp [lookupKV] at h
  | cons p rest ih =>
    by_cases hp : p.1 = k
    · simp [hp]
    · rw [lookupKV, if_neg hp] at h
      simp [ih h]

/-- One zero-fill step: lookups are preserved, the id set only grows, the
processed id joins the id set, and counter keys stay inside the id set. -/
theorem zeroFillStep_props (st : List String × List (String × Int) × List (String × Int))
    (d : String)
    (h1 : ∀ k, (lookupKV st.2.1 k).isSome → k ∈ st.1)
    (h2 : ∀ k, (lookupKV st.2.2 k).isSome → k ∈ st.1) :
    (∀ k, lookupD (zeroFillStep st d).2.1 k = lookupD st.2.1 k) ∧
    (∀ k, lookupD (zeroFillStep st d).2.2 k = lookupD st.2.2 k) ∧
    (∀ k, k ∈ st.1 → k ∈ (zeroFillStep st d).1) ∧
    (d ∈ (zeroFillStep st d).1) ∧
    (∀ k, (lookupKV (zeroFillStep st d).2.1 k).isSome → k ∈ (zeroFillStep st d).1) ∧
    (∀ k, (lookupKV (zeroFillStep st d).2.2 k).isSome → k ∈ (zeroFillStep st d).1) := by
  unfold zeroFillStep
  by_cases hd : st.1.contains d
  · rw [if_pos hd]
    exact ⟨fun k => rfl, fun k => rfl, fun k hk => hk, by simpa using hd, h1, h2⟩
  · rw [if_neg hd]
    have append0 : ∀ (m : List (String × Int)) (k : String),
        lookupD (m ++ [(d, 0)]) k = lookupD m k := by
      intro m k
      unfold lookupD
      rw [lookupKV_append]
      cases hm : lookupKV m k with
      | some v => simp
      | none =>
        by_cases hk : d = k
        · subst hk; simp [lookupKV, hm]
        · simp [lookupKV, hk, hm]
    have memAppend : ∀ k : String, k ∈ st.1 → k ∈ st.1 ++ [d] := by
      intro k hk; exact List.mem_append_left _ hk
    have keysAppend : ∀ (m : List (String × Int)) (hm : ∀ k, (lookupKV m k).isSome → k ∈ st.1)
        (k : String), (lookupKV (m ++ [(d, 0)]) k).isSome → k ∈ st.1 ++ [d] := by
      intro m hm k hk
      rw [lookupKV_append] at hk
      cases hcs : lookupKV m k with
      | some v => exact memAppend k (hm k (by simp [hcs]))
      | none =>
        rw [hcs] at hk
        simp only [lookupKV] at hk
        by_cases hdk : d = k
        · subst hdk; simp
        · simp [hdk] at hk
    refine ⟨?_, ?_, memAppend, by simp, ?_, ?_⟩
    · intro k
      show lookupD (if (lookupKV st.2.1 d).isNone = true then st.2.1 ++ [(d, 0)] else st.2.1) k
          = lookupD st.2.1 k
      cases hl : lookupKV st.2.1 d with
      | none => rw [if_pos (by simp [hl])]; exact append0 st.2.1 k
      | some v => rw [if_neg (by simp [hl])]
    · intro k
      show lookupD (if (lookupKV st.2.2 d).isNone = true then st.2.2 ++ [(d, 0)] else st.2.2) k
          = lookupD st.2.2 k
      cases hl : lookupKV st.2.2 d with
      | none => rw [if_pos (by simp [hl])]; exact append0 st.2.2 k
      | some v => rw [if_neg (by simp [hl])]
    · intro k hk
      replace hk : (lookupKV
          (if (lookupKV st.2.1 d).isNone = true then st.2.1 ++ [(d, 0)] else st.2.1) k).isSome
          = true := hk
      show k ∈ st.1 ++ [d]
      cases hl : lookupKV st.2.1 d with
      | none =>
        rw [if_pos (by simp [hl])] at hk
        exact keysAppend st.2.1 h1 k hk
      | some v =>
        rw [if_neg (by simp [hl])] at hk
        exact memAppend k (h1 k hk)
    · intro k hk
      replace hk : (lookupKV
          (if (lookupKV st.2.2 d).isNone = true then st.2.2 ++ [(d, 0)] else st.2.2) k).isSome
          = true := hk
      show k ∈ st.1 ++ [d]
      cases hl : lookupKV st.2.2 d with
      | none =>
        rw [if_pos (by simp [hl])] at hk
        exact keysAppend st.2.2 h2 k hk
      | some v =>
        rw [if_neg (by simp [hl])] at hk
        exact memAppend k (h2 k hk)

/-- The zero-fill loop: lookups preserved, id set only grows and absorbs
every roster id, counter keys stay inside the id set. -/
theorem zeroFill_fold_props (ids : List String) :
    ∀ st : List String × List (String × Int) × List (String × Int),
    (∀ k, (lookupKV st.2.1 k).isSome → k ∈ st.1) →
    (∀ k, (lookupKV st.2.2 k).isSome → k ∈ st.1) →
    (∀ k, lookupD (ids.foldl zeroFillStep st).2.1 k = lookupD st.2.1 k) ∧
    (∀ k, lookupD (ids.foldl zeroFillStep st).2.2 k = lookupD st.2.2 k) ∧
    (∀ k, k ∈ st.1 → k ∈ (ids.foldl zeroFillStep st).1) ∧
    (∀ k, k ∈ ids → k ∈ (ids.foldl zeroFillStep st).1) ∧
    (∀ k, (lookupKV (ids.foldl zeroFillStep st).2.1 k).isSome → k ∈ (ids.foldl zeroFillStep st).1) ∧
    (∀ k, (lookupKV (ids.foldl zeroFillStep st).2.2 k).isSome → k ∈ (ids.foldl zeroFillStep st).1) := by
  induction ids with
  | nil =>
    intro st h1 h2
    exact ⟨fun k => rfl, fun k => rfl, fun k hk => hk, by simp, h1, h2⟩
  | cons d rest ih =>
    intro st h1 h2
    have step := zeroFillStep_props st d h1 h2
    have rec := ih (zeroFillStep st d) step.2.2.2.2.1 step.2.2.2.2.2
    rw [List.foldl_cons]
    refine ⟨?_, ?_, ?_, ?_, rec.2.2.2.2.1, rec.2.2.2.2.2⟩
    · intro k; rw [rec.1 k, step.1 k]
    · intro k; rw [rec.2.1 k, step.2.1 k]
    · intro k hk; exact rec.2.2.1 k (step.2.2.1 k hk)
    · intro k hk
      rcases List.mem_cons.mp hk with rfl | hk
      · exact rec.2.2.1 k step.2.2.2.1
      · exact rec.2.2.2.1 k hk

/-- Counter lookups are preserved by zero-fill, counter keys end inside
the final id set, and a successful roster is absorbed into the id set. -/
theorem zeroFill_props (roster : Option (List String)) (cs ds : List (String × Int)) :
    (∀ k, lookupD (zeroFill roster cs ds).2.1 k = lookupD cs k) ∧
    (∀ k, lookupD (zeroFill roster cs ds).2.2 k = lookupD ds k) ∧
    (∀ k, (lookupKV (zeroFill roster cs ds).2.1 k).isSome → k ∈ (zeroFill roster cs ds).1) ∧
    (∀ k, (lookupKV (zeroFill roster cs ds).2.2 k).isSome → k ∈ (zeroFill roster cs ds).1) ∧
    (∀ ids, roster = some ids → ∀ k, k ∈ ids → k ∈ (zeroFill roster cs ds).1) := by
  have h1 : ∀ k, (lookupKV cs k).isSome → k ∈ dedupFirst (cs.map Prod.fst ++ ds.map Prod.fst) := by
    intro k hk
    rw [mem_dedupFirst]
    exact List.mem_append_left _ (mem_keys_of_lookupKV_isSome cs k hk)
  have h2 : ∀ k, (lookupKV ds k).isSome → k ∈ dedupFirst (cs.map Prod.fst ++ ds.map Prod.fst) := by
    intro k hk
    rw [mem_dedupFirst]
    exact List.mem_append_right _ (mem_keys_of_lookupKV_isSome ds k hk)
  cases roster with
  | none =>
    exact ⟨fun k => rfl, fun k => rfl, h1, h2, fun ids h => by cases h⟩
  | some ids =>
    have props := zeroFill_fold_props ids (dedupFirst (cs.map Prod.fst ++ ds.map Prod.fst), cs, ds) h1 h2
    exact ⟨props.1, props.2.1, props.2.2.2.2.1, props.2.2.2.2.2,
      fun ids2 h k hk => by cases h; exact props.2.2.2.1 k hk⟩

/-- The written totalVotes is the clamped post-delta totalVotes. -/
theorem applyChange_totalVotes (ch : Change) (roster : Option (List String))
    (stored : Option ElectionResult) :
    (applyChange ch roster stored).totalVotes = tvFinal ch stored := rfl

/-- The written totalDislikeMarks is the clamped post-delta
totalDislikeMarks. -/
theorem applyChange_totalDislikeMarks (ch : Change) (roster : Option (List String))
    (stored : Option ElectionResult) :
    (applyChange ch roster stored).totalDislikeMarks = tdmFinal ch stored := rfl

/-- The zero-fill properties restated for the id set and counters the
written record is built from. -/
theorem zfOf_props (ch : Change) (roster : Option (List String))
    (stored : Option ElectionResult) :
    (∀ k, lookupD (zfOf ch roster stored).2.1 k = lookupD (countsAfter ch stored) k) ∧
    (∀ k, lookupD (zfOf ch roster stored).2.2 k = lookupD (dsAfter ch stored) k) ∧
    (∀ k, (lookupKV (zfOf ch roster stored).2.1 k).isSome → k ∈ (zfOf ch roster stored).1) ∧
    (∀ k, (lookupKV (zfOf ch roster stored).2.2 k).isSome → k ∈ (zfOf ch roster stored).1) ∧
    (∀ ids, roster = some ids → ∀ k, k ∈ ids → k ∈ (zfOf ch roster stored).1) :=
  zeroFill_props roster (countsAfter ch stored) (dsAfter ch stored)

/-- The count stored in the written record is exactly the post-delta
counter, zero-fill changing nothing. -/
theorem resCount_applyChange (ch : Change) (roster : Option (List String))
    (stored : Option ElectionResult) (x : String) :
    resCount (some (applyChange ch roster stored)) x = lookupD (countsAfter ch stored) x := by
  have props := zfOf_props ch roster stored
  show ((lookupKV (applyChange ch roster stored).candidates x).map (fun e => e.count)).getD 0 = _
  have hc : (applyChange ch roster stored).candidates =
      (zfOf ch roster stored).1.map (fun cid =>
        (cid, buildEntry (zfOf ch roster stored).2.1 (zfOf ch roster stored).2.2
          (tvFinal ch stored) (tdmFinal ch stored) cid)) := rfl
  rw [hc, lookupKV_keyed_map]
  by_cases hx : x ∈ (zfOf ch roster stored).1
  · rw [if_pos hx]
    show lookupD (zfOf ch roster stored).2.1 x = _
    exact props.1 x
  · rw [if_neg hx]
    show (0 : Int) = lookupD (countsAfter ch stored) x
    rw [← props.1 x]
    unfold lookupD
    cases hl : lookupKV (zfOf ch roster stored).2.1 x with
    | none => simp
    | some v => exact absurd (props.2.2.1 x (by simp [hl])) hx

/-- The dislike count readable from the written record is the post-delta
dislike counter floored at 0 (a nonpositive counter yields an absent
dislikeCount field). -/
theorem resDislikeVal_applyChange (ch : Change) (roster : Option (List String))
    (stored : Option ElectionResult) (x : String) :
    resDislikeVal (applyChange ch roster stored) x =
      if 0 < lookupD (dsAfter ch stored) x then lookupD (dsAfter ch stored) x else 0 := by
  have props := zfOf_props ch roster stored
  unfold resDislikeVal
  have hc : (applyChange ch roster stored).candidates =
      (zfOf ch roster stored).1.map (fun cid =>
        (cid, buildEntry (zfOf ch roster stored).2.1 (zfOf ch roster stored).2.2
          (tvFinal ch stored) (tdmFinal ch stored) cid)) := rfl
  rw [hc, lookupKV_keyed_map]
  by_cases hx : x ∈ (zfOf ch roster stored).1
  · rw [if_pos hx]
    have hz : lookupD (zfOf ch roster stored).2.2 x = lookupD (dsAfter ch stored) x :=
      props.2.1 x
    show ((if 0 < lookupD (zfOf ch roster stored).2.2 x
        then some (lookupD (zfOf ch roster stored).2.2 x) else none).getD 0) = _
    rw [hz]
    by_cases h0 : 0 < lookupD (dsAfter ch stored) x
    · rw [if_pos h0, if_pos h0]; rfl
    · rw [if_neg h0, if_neg h0]; rfl
  · rw [if_neg hx]
    have hz : lookupD (dsAfter ch stored) x = 0 := by
      rw [← props.2.1 x]
      unfold lookupD
      cases hl : lookupKV (zfOf ch roster stored).2.2 x with
      | none => simp
      | some v => exact absurd (props.2.2.2.1 x (by simp [hl])) hx
    rw [hz]
    simp

/-- A successful lookup returns a member of the list. -/
theorem mem_of_lookupKV_eq_some {β : Type} (m : List (String × β)) (k : String) (v : β)
    (h : lookupKV m k = some v) : (k, v) ∈ m := by
  induction m with
  | nil => simp [lookupKV] at h
  | cons p rest ih =>
    by_cases hp : p.1 = k
    · rw [lookupKV, if_pos hp] at h
      cases h
      have : (k, p.2) = p := by rw [← hp]
      rw [this]
      exact List.mem_cons_self p rest
    · rw [lookupKV, if_neg hp] at h
      exact List.mem_cons_of_mem p (ih h)

/-- Lookup through a key-preserving map of the values. -/
theorem lookupKV_map_entry {β γ : Type} (m : List (String × β)) (g : String × β → γ)
    (k : String) :
    lookupKV (m.map (fun p => (p.1, g p))) k = (lookupKV m k).map (fun v => g (k, v)) := by
  induction m with
  | nil => simp [lookupKV]
  | cons p rest ih =>
    by_cases hp : p.1 = k
    · subst hp
      simp [lookupKV, ih]
    · simp [lookupKV, hp, ih]

/-- The empty-or-switch-free diff test is false on equal lists. -/
theorem dislikesDiffer_self (l : List String) : dislikesDiffer l l = false := by
  unfold dislikesDiffer
  have h : l.any (fun d => !(l.contains d)) = false := by
    rw [List.any_eq_false]
    intro x hx
    simp [hx]
  simp [h]

/-- Images agreeing on every election id produce no affected elections. -/
theorem computeAffected_eq_nil (be ae : List (String × ElectionChoice))
    (h : ∀ id, candidateOf be id = candidateOf ae id ∧ dislikesOf be id = dislikesOf ae id) :
    computeAffected be ae = [] := by
  unfold computeAffected
  rw [List.filterMap_eq_nil_iff]
  intro id hid
  rw [(h id).1, (h id).2, if_neg]
  rw [not_or]
  exact ⟨fun hne => hne rfl, by simp [dislikesDiffer_self]⟩

/-- truthy holds exactly on nonempty present strings. -/
theorem truthy_some (c : String) (hc : c ≠ "") : truthy (some c) = true := by
  simp [truthy, hc]

/-- A fresh vote: no decrement, counter of the new candidate bumped,
totalVotes bumped. -/
theorem voteDelta_new (c : String) (hc : c ≠ "") (m : List (String × Int)) (tv : Int) :
    voteDelta none (some c) m tv = (setKey m c (lookupD m c + 1), tv + 1) := by
  unfold voteDelta
  simp [truthy, hc]

/-- A cancellation: guarded decrement of the old candidate, totalVotes
dropped. -/
theorem voteDelta_cancel (c2 : String) (hc : c2 ≠ "") (m : List (String × Int)) (tv : Int) :
    voteDelta (some c2) none m tv = (decEntry m c2, tv - 1) := by
  unfold voteDelta
  simp [truthy, hc]

/-- A switch: guarded decrement of the old candidate, counter of the new
candidate bumped, totalVotes unchanged. -/
theorem voteDelta_switch (c2 c : String) (hc2 : c2 ≠ "") (hc : c ≠ "") (hne : c2 ≠ c)
    (m : List (String × Int)) (tv : Int) :
    voteDelta (some c2) (some c) m tv =
      (setKey (decEntry m c2) c (lookupD (decEntry m c2) c + 1), tv) := by
  unfold voteDelta
  have hne2 : (some c2 : Option String) ≠ some c := by simp [hne]
  simp [truthy, hc2, hc, hne2]

/-- C3: a (before, after) pair in which every election id has identical
chosen candidate and identical dislike list yields zero affected
elections, so the pass performs no ElectionResult read or write: the
result store is returned untouched. In particular this holds for a
redelivered identical pair and for the pair (after, after). -/
theorem c3_idempotence (bef aft : Option VoteDoc)
    (h : ∀ id, candidateOf (electionsOf bef) id = candidateOf (electionsOf aft) id ∧
        dislikesOf (electionsOf bef) id = dislikesOf (electionsOf aft) id) :
    computeAffected (electionsOf bef) (electionsOf aft) = [] ∧
    ∀ rosterOf results, runPass bef aft rosterOf results = results := by
  have hca := computeAffected_eq_nil _ _ h
  refine ⟨hca, fun rosterOf results => ?_⟩
  unfold runPass
  rw [hca, List.foldl_nil]

/-- Witness for C3 at a concrete redelivered pair. -/
theorem c3_idempotence_witness :
    computeAffected (electionsOf (some ⟨[("e1", ⟨some "A", ["B"], 3, 4⟩)]⟩))
        (electionsOf (some ⟨[("e1", ⟨some "A", ["B"], 3, 4⟩)]⟩)) = [] ∧
    runPass (some ⟨[("e1", ⟨some "A", ["B"], 3, 4⟩)]⟩)
        (some ⟨[("e1", ⟨some "A", ["B"], 3, 4⟩)]⟩) (fun _ => none) (fun _ => none) =
      (fun _ => none) :=
  ⟨(c3_idempotence _ _ (fun _ => ⟨rfl, rfl⟩)).1,
   (c3_idempotence _ _ (fun _ => ⟨rfl, rfl⟩)).2 (fun _ => none) (fun _ => none)⟩

/-- C6: a failed roster fetch does not abort the transaction: the written
record equals the one a successful but empty roster would produce (the
failure is only logged), and its candidate ids are exactly the ones
already known from the stored record and the applied deltas. -/
theorem c6_roster_failure (ch : Change) (stored : Option ElectionResult) :
    applyChange ch none stored = applyChange ch (some []) stored ∧
    (applyChange ch none stored).candidates.map Prod.fst = knownIds ch stored := by
  constructor
  · rfl
  · have hc : (applyChange ch none stored).candidates =
        (zfOf ch none stored).1.map (fun cid =>
          (cid, buildEntry (zfOf ch none stored).2.1 (zfOf ch none stored).2.2
            (tvFinal ch stored) (tdmFinal ch stored) cid)) := rfl
    rw [hc, List.map_map]
    have h3 : (Prod.fst ∘ fun cid =>
        (cid, buildEntry (zfOf ch none stored).2.1 (zfOf ch none stored).2.2
          (tvFinal ch stored) (tdmFinal ch stored) cid)) = id := rfl
    rw [h3, List.map_id]
    rfl

/-- C7: with a successful roster fetch, every roster id has an entry in
the written record; concretely a cancellation pass on an absent stored
record for an election with roster A, B, C writes exactly A, B, C, each
with count 0, percentage 0 and no dislikeCount field. -/
theorem c7_zero_fill_completeness :
    (∀ (ch : Change) (ids : List String) (stored : Option ElectionResult) (cid : String),
      cid ∈ ids →
        (lookupKV (applyChange ch (some ids) stored).candidates cid).isSome = true) ∧
    applyChange exCh7 (some ["A", "B", "C"]) none =
      ⟨"e1", 0, 0, [("A", ⟨0, 0, none, none⟩), ("B", ⟨0, 0, none, none⟩),
        ("C", ⟨0, 0, none, none⟩)]⟩ := by
  constructor
  · intro ch ids stored cid hcid
    have props := zfOf_props ch (some ids) stored
    have hmem : cid ∈ (zfOf ch (some ids) stored).1 :=
      props.2.2.2.2 ids rfl cid hcid
    have hc : (applyChange ch (some ids) stored).candidates =
        (zfOf ch (some ids) stored).1.map (fun c =>
          (c, buildEntry (zfOf ch (some ids) stored).2.1 (zfOf ch (some ids) stored).2.2
            (tvFinal ch stored) (tdmFinal ch stored) c)) := rfl
    rw [hc, lookupKV_keyed_map, if_pos hmem]
    rfl
  · decide

/-- Witness for C7 at a concrete roster id. -/
theorem c7_zero_fill_completeness_witness :
    (lookupKV (applyChange exCh7 (some ["A", "B", "C"]) none).candidates "B").isSome = true :=
  c7_zero_fill_completeness.1 exCh7 ["A", "B", "C"] none "B" (by decide)

/-- C8: every written entry's percentage equals the rounded ratio of its
own written count to the written totalVotes of the same pass (0 when
totalVotes is 0); concretely three votes split 1/1/1 across A, B, C give
percentage 33.3 to each individually. -/
theorem c8_percentage :
    (∀ (ch : Change) (roster : Option (List String)) (stored : Option ElectionResult)
      (p : String × CandidateResult), p ∈ (applyChange ch roster stored).candidates →
        p.2.percentage = pctOf p.2.count (applyChange ch roster stored).totalVotes) ∧
    (applyChange exChC none (some exR2)).totalVotes = 3 ∧
    ∀ cid ∈ (["A", "B", "C"] : List String),
      ((lookupKV (applyChange exChC none (some exR2)).candidates cid).map
        (fun e => e.percentage)).getD 0 = 333/10 := by
  refine ⟨?_, by decide, ?_⟩
  · intro ch roster stored p hp
    have hc : (applyChange ch roster stored).candidates =
        (zfOf ch roster stored).1.map (fun c =>
          (c, buildEntry (zfOf ch roster stored).2.1 (zfOf ch roster stored).2.2
            (tvFinal ch stored) (tdmFinal ch stored) c)) := rfl
    rw [hc] at hp
    obtain ⟨cid, hcid, rfl⟩ := List.mem_map.mp hp
    rfl
  · intro cid hcid
    have hcid2 : cid = "A" ∨ cid = "B" ∨ cid = "C" := by simpa using hcid
    rcases hcid2 with rfl | rfl | rfl <;>
    · simp [applyChange, exChC, exR2, zfOf, zeroFill, zeroFillStep, countsAfter, dsAfter,
        dislikeStateAfter, storedData, reconCounts, reconDislikes, voteDelta, truthy, decEntry,
        setKey, eraseKey, lookupD, lookupKV, applyAdds, applyRemoves, removedOf, addedOf,
        tvAfter, tdmAfter, tvFinal, tdmFinal, dedupFirst, dedupFirstAux, buildEntry]
      norm_num [pctOf, jsRound]

/-- Witness for C8 at candidate A of the concrete 1/1/1 split. -/
theorem c8_percentage_witness :
    ((lookupKV (applyChange exChC none (some exR2)).candidates "A").map
      (fun e => e.percentage)).getD 0 = 333/10 :=
  c8_percentage.2.2 "A" (by decide)

/-- The guarded decrement preserves nonnegativity of all counters. -/
theorem looksNonneg_decEntry (m : List (String × Int)) (k : String)
    (h : looksNonneg m) : looksNonneg (decEntry m k) := by
  intro x
  by_cases hx : x = k
  · subst hx
    by_cases h0 : lookupD m x = 0
    · unfold decEntry
      rw [if_neg (fun hc => hc h0)]
      exact h x
    · have h1 : 1 ≤ lookupD m x := by have := h x; omega
      rw [lookupD_decEntry_of_pos m x h1 x, if_pos rfl]
      omega
  · rw [lookupD_decEntry_ne m k x hx]
    exact h x

/-- The vote delta preserves nonnegativity of all counters. -/
theorem looksNonneg_voteDelta (bc ac : Option String) (m : List (String × Int)) (tv : Int)
    (h : looksNonneg m) : looksNonneg (voteDelta bc ac m tv).1 := by
  have hs1 : looksNonneg (if truthy bc ∧ bc ≠ ac then decEntry m (bc.getD "") else m) := by
    split_ifs with hc
    · exact looksNonneg_decEntry m _ h
    · exact h
  have hmain : ∀ s1 : List (String × Int), looksNonneg s1 →
      looksNonneg (if truthy ac ∧ bc ≠ ac then
        setKey s1 (ac.getD "") (lookupD s1 (ac.getD "") + 1) else s1) := by
    intro s1 hs
    split_ifs with hc
    · intro x
      rw [lookupD_setKey]
      split_ifs with hx
      · have := hs (ac.getD ""); omega
      · exact hs x
    · exact hs
  exact hmain _ hs1

/-- The added-dislikes loop preserves nonnegativity of all counters. -/
theorem looksNonneg_applyAdds (adds : List String) :
    ∀ st : List (String × Int) × Int, looksNonneg st.1 → looksNonneg (applyAdds adds st).1 := by
  induction adds with
  | nil => intro st h; exact h
  | cons a rest ih =>
    intro st h
    have hstep : applyAdds (a :: rest) st =
        applyAdds rest (setKey st.1 a (lookupD st.1 a + 1), st.2 + 1) := rfl
    rw [hstep]
    apply ih
    intro x
    show 0 ≤ lookupD (setKey st.1 a (lookupD st.1 a + 1)) x
    rw [lookupD_setKey]
    split_ifs with hx
    · have := h a; omega
    · exact h x

/-- The removed-dislikes loop preserves nonnegativity of all counters. -/
theorem looksNonneg_applyRemoves (rems : List String) :
    ∀ st : List (String × Int) × Int, looksNonneg st.1 → looksNonneg (applyRemoves rems st).1 := by
  induction rems with
  | nil => intro st h; exact h
  | cons a rest ih =>
    intro st h
    have hstep : applyRemoves (a :: rest) st = applyRemoves rest
        (if lookupD st.1 a ≠ 0 then
          ((if lookupD st.1 a - 1 ≤ 0 then eraseKey st.1 a
            else setKey st.1 a (lookupD st.1 a - 1)), st.2 - 1)
        else st) := rfl
    rw [hstep]
    apply ih
    split_ifs with h1 h2
    · intro x
      show 0 ≤ lookupD (eraseKey st.1 a) x
      rw [lookupD_eraseKey]
      split_ifs with hx
      · omega
      · exact h x
    · intro x
      show 0 ≤ lookupD (setKey st.1 a (lookupD st.1 a - 1)) x
      rw [lookupD_setKey]
      split_ifs with hx
      · have := h a; omega
      · exact h x
    · exact h

/-- Reconstructed vote counters of a nonnegative stored record are
nonnegative. -/
theorem looksNonneg_reconCounts (ch : Change) (stored : Option ElectionResult)
    (h : storedCountsNonneg stored) : looksNonneg (reconCounts (storedData ch stored)) := by
  intro k
  cases stored with
  | none =>
    show 0 ≤ lookupD (reconCounts (emptyResult ch.electionId)) k
    simp [reconCounts, emptyResult, lookupD, lookupKV]
  | some r =>
    show 0 ≤ lookupD (reconCounts r) k
    unfold lookupD reconCounts
    rw [lookupKV_map_entry r.candidates (fun p => p.2.count) k]
    cases hl : lookupKV r.candidates k with
    | none => simp
    | some v =>
      have hmem := mem_of_lookupKV_eq_some _ _ _ hl
      have := (h r rfl (k, v) hmem).1
      simpa using this

/-- Reconstructed dislike counters of a nonnegative stored record are
nonnegative. -/
theorem looksNonneg_reconDislikes (ch : Change) (stored : Option ElectionResult)
    (h : storedCountsNonneg stored) : looksNonneg (reconDislikes (storedData ch stored)) := by
  intro k
  cases stored with
  | none =>
    show 0 ≤ lookupD (reconDislikes (emptyResult ch.electionId)) k
    simp [reconDislikes, emptyResult, lookupD, lookupKV]
  | some r =>
    show 0 ≤ lookupD (reconDislikes r) k
    unfold lookupD reconDislikes
    rw [lookupKV_map_entry r.candidates (fun p => p.2.dislikeCount.getD 0) k]
    cases hl : lookupKV r.candidates k with
    | none => simp
    | some v =>
      have hmem := mem_of_lookupKV_eq_some _ _ _ hl
      have := (h r rfl (k, v) hmem).2
      simpa using this

/-- Post-vote-delta counters are nonnegative. -/
theorem looksNonneg_countsAfter (ch : Change) (stored : Option ElectionResult)
    (h : storedCountsNonneg stored) : looksNonneg (countsAfter ch stored) :=
  looksNonneg_voteDelta _ _ _ _ (looksNonneg_reconCounts ch stored h)

/-- Post-dislike-delta counters are nonnegative. -/
theorem looksNonneg_dsAfter (ch : Change) (stored : Option ElectionResult)
    (h : storedCountsNonneg stored) : looksNonneg (dsAfter ch stored) := by
  unfold dsAfter dislikeStateAfter
  apply looksNonneg_applyRemoves
  exact looksNonneg_applyAdds _ _ (looksNonneg_reconDislikes ch stored h)

/-- C4: one aggregation pass, from any images, any roster outcome and any
stored record whose counters are nonnegative (all records the engine
itself writes are, including those left by duplicate or out-of-order
deliveries), writes a record with totalVotes and totalDislikeMarks
clamped at 0 and every count and dislikeCount nonnegative; entries that
would drop to zero or below are removed rather than stored negative. -/
theorem c4_nonnegativity (ch : Change) (roster : Option (List String))
    (stored : Option ElectionResult) (h : storedCountsNonneg stored) :
    resultNonneg (applyChange ch roster stored) := by
  have props := zfOf_props ch roster stored
  refine ⟨?_, ?_, ?_⟩
  · show 0 ≤ tvFinal ch stored
    unfold tvFinal
    split_ifs with h1 <;> omega
  · show 0 ≤ tdmFinal ch stored
    unfold tdmFinal
    split_ifs with h1 <;> omega
  · intro p hp
    have hc : (applyChange ch roster stored).candidates =
        (zfOf ch roster stored).1.map (fun c =>
          (c, buildEntry (zfOf ch roster stored).2.1 (zfOf ch roster stored).2.2
            (tvFinal ch stored) (tdmFinal ch stored) c)) := rfl
    rw [hc] at hp
    obtain ⟨cid, hcid, rfl⟩ := List.mem_map.mp hp
    constructor
    · show 0 ≤ lookupD (zfOf ch roster stored).2.1 cid
      rw [props.1 cid]
      exact looksNonneg_countsAfter ch stored h cid
    · intro k hk
      replace hk : (if 0 < lookupD (zfOf ch roster stored).2.2 cid
          then some (lookupD (zfOf ch roster stored).2.2 cid) else none) = some k := hk
      split_ifs at hk with h0
      cases hk
      omega

/-- Witness for C4 at the concrete 1/1/1 pass. -/
theorem c4_nonnegativity_witness :
    resultNonneg (applyChange exChC none (some exR2)) :=
  c4_nonnegativity exChC none (some exR2) (by
    intro r hr
    cases hr
    intro p hp
    have hp2 : p = ("A", ⟨1, 50, none, none⟩) ∨ p = ("B", ⟨1, 50, none, none⟩) := by
      simpa [exR2] using hp
    rcases hp2 with rfl | rfl <;> exact ⟨by norm_num, by norm_num⟩)

/-- The submit transaction written out explicitly. -/
theorem submitVoteFn_eq (E c : String) (now : Nat) (d : Option VoteDoc) :
    submitVoteFn E c now d = ⟨setKey (electionsOf d) E
      { candidateId := some c
        dislikedCandidates := (((lookupKV (electionsOf d) E).map
          (fun e => e.dislikedCandidates)).getD []).filter (fun id => !(id == c))
        createdAt := (((lookupKV (electionsOf d) E).map (fun e => e.createdAt)).getD now)
        updatedAt := now }⟩ := rfl

/-- The cancel transaction on a present document written out explicitly. -/
theorem cancelVoteFn_some (E : String) (now : Nat) (doc : VoteDoc) :
    cancelVoteFn E now (some doc) =
      (match lookupKV doc.elections E with
       | none => some ⟨doc.elections⟩
       | some entry =>
         if entry.dislikedCandidates ≠ [] then
           some ⟨setKey doc.elections E
             { candidateId := none
               dislikedCandidates := entry.dislikedCandidates
               createdAt := entry.createdAt
               updatedAt := now }⟩
         else some ⟨eraseKey doc.elections E⟩) := rfl

/-- C9: cancelVote leaves the document unchanged when the per-election
entry is absent (and performs no write at all on an absent document);
with a nonempty dislike list the entry is kept with candidateId cleared
and the dislike list preserved; with an empty dislike list the entry is
deleted entirely. -/
theorem c9_cancel_vote (E : String) (now : Nat) (d : Option VoteDoc) :
    (entryOfOpt d E = none → cancelVoteFn E now d = d) ∧
    (∀ entry, entryOfOpt d E = some entry →
      (entry.dislikedCandidates = [] → entryOfOpt (cancelVoteFn E now d) E = none) ∧
      (entry.dislikedCandidates ≠ [] →
        ∃ e2, entryOfOpt (cancelVoteFn E now d) E = some e2 ∧
          e2.candidateId = none ∧ e2.dislikedCandidates = entry.dislikedCandidates)) := by
  cases d with
  | none => exact ⟨fun _ => rfl, fun entry he => by cases he⟩
  | some doc =>
    cases hl : lookupKV doc.elections E with
    | none =>
      constructor
      · intro _
        rw [cancelVoteFn_some, hl]
      · intro entry he
        have he2 : lookupKV doc.elections E = some entry := he
        rw [hl] at he2
        cases he2
    | some entry0 =>
      have hfn : cancelVoteFn E now (some doc) =
          (if entry0.dislikedCandidates ≠ [] then
            some ⟨setKey doc.elections E
              { candidateId := none
                dislikedCandidates := entry0.dislikedCandidates
                createdAt := entry0.createdAt
                updatedAt := now }⟩
          else some ⟨eraseKey doc.elections E⟩) := by
        simp only [cancelVoteFn_some, hl]
      constructor
      · intro habs
        have habs2 : lookupKV doc.elections E = none := habs
        rw [hl] at habs2
        cases habs2
      · intro entry he
        have he3 : lookupKV doc.elections E = some entry := he
        rw [hl] at he3
        cases he3
        constructor
        · intro hde
          rw [hfn, if_neg (fun hc => hc hde)]
          show lookupKV (eraseKey doc.elections E) E = none
          rw [lookupKV_eraseKey, if_pos rfl]
        · intro hde
          rw [hfn, if_pos hde]
          refine ⟨{ candidateId := none
                    dislikedCandidates := entry0.dislikedCandidates
                    createdAt := entry0.createdAt
                    updatedAt := now }, ?_, rfl, rfl⟩
          show lookupKV (setKey doc.elections E _) E = _
          rw [lookupKV_setKey, if_pos rfl]

/-- Witness for C9: cancelling a vote whose entry still has a dislike
mark keeps the dislike list and clears the pick. -/
theorem c9_cancel_vote_witness :
    ∃ e2, entryOfOpt (cancelVoteFn "e1" 9 (some ⟨[("e1", ⟨some "A", ["B"], 0, 0⟩)]⟩)) "e1"
        = some e2 ∧
      e2.candidateId = none ∧
      e2.dislikedCandidates = (⟨some "A", ["B"], 0, 0⟩ : ElectionChoice).dislikedCandidates :=
  ((c9_cancel_vote "e1" 9 (some ⟨[("e1", ⟨some "A", ["B"], 0, 0⟩)]⟩)).2
    ⟨some "A", ["B"], 0, 0⟩ (by decide)).2 (by decide)

/-- C10: each mutator rewrites only its own election's entry: the entry
of every other election, timestamps included, is unchanged in the
written document. -/
theorem c10_frame (E c : String) (now : Nat) (d : Option VoteDoc) (e2 : String)
    (hne : e2 ≠ E) :
    entryOfOpt (some (submitVoteFn E c now d)) e2 = entryOfOpt d e2 ∧
    entryOfOpt (cancelVoteFn E now d) e2 = entryOfOpt d e2 ∧
    entryOfOpt (toggleDislikeFn E c now d) e2 = entryOfOpt d e2 := by
  refine ⟨?_, ?_, ?_⟩
  · rw [submitVoteFn_eq]
    show lookupKV (setKey (electionsOf d) E _) e2 = lookupKV (electionsOf d) e2
    rw [lookupKV_setKey, if_neg hne]
  · cases d with
    | none => rfl
    | some doc =>
      rw [cancelVoteFn_some]
      cases hl : lookupKV doc.elections E with
      | none => rfl
      | some entry0 =>
        show entryOfOpt (if entry0.dislikedCandidates ≠ [] then
            some ⟨setKey doc.elections E
              { candidateId := none
                dislikedCandidates := entry0.dislikedCandidates
                createdAt := entry0.createdAt
                updatedAt := now }⟩
          else some ⟨eraseKey doc.elections E⟩) e2 = entryOfOpt (some doc) e2
        by_cases hde : entry0.dislikedCandidates ≠ []
        · rw [if_pos hde]
          show lookupKV (setKey doc.elections E _) e2 = lookupKV doc.elections e2
          rw [lookupKV_setKey, if_neg hne]
        · rw [if_neg hde]
          show lookupKV (eraseKey doc.elections E) e2 = lookupKV doc.elections e2
          rw [lookupKV_eraseKey, if_neg hne]
  · unfold toggleDislikeFn
    by_cases hcur : ((lookupKV (electionsOf d) E).getD
        { candidateId := none, dislikedCandidates := [], createdAt := now,
          updatedAt := now }).candidateId = some c
    · rw [if_pos hcur]
    · rw [if_neg hcur]
      show lookupKV (setKey (electionsOf d) E _) e2 = lookupKV (electionsOf d) e2
      rw [lookupKV_setKey, if_neg hne]

/-- Witness for C10 at a concrete document holding another election. -/
theorem c10_frame_witness :
    entryOfOpt (some (submitVoteFn "e1" "A" 7 (some ⟨[("e2", ⟨some "X", [], 1, 2⟩)]⟩))) "e2" =
      entryOfOpt (some ⟨[("e2", ⟨some "X", [], 1, 2⟩)]⟩) "e2" :=
  (c10_frame "e1" "A" 7 (some ⟨[("e2", ⟨some "X", [], 1, 2⟩)]⟩) "e2" (by decide)).1

/-- The toggle transaction written out explicitly. -/
theorem toggleDislikeFn_eq (E c : String) (now : Nat) (d : Option VoteDoc) :
    toggleDislikeFn E c now d =
      (if ((lookupKV (electionsOf d) E).getD ⟨none, [], now, now⟩).candidateId = some c then d
       else some ⟨setKey (electionsOf d) E
         { candidateId := ((lookupKV (electionsOf d) E).getD ⟨none, [], now, now⟩).candidateId
           dislikedCandidates :=
             (if ((lookupKV (electionsOf d) E).getD
                    ⟨none, [], now, now⟩).dislikedCandidates.contains c
              then ((lookupKV (electionsOf d) E).getD
                    ⟨none, [], now, now⟩).dislikedCandidates.erase c
              else ((lookupKV (electionsOf d) E).getD
                    ⟨none, [], now, now⟩).dislikedCandidates ++ [c])
           createdAt := ((lookupKV (electionsOf d) E).getD ⟨none, [], now, now⟩).createdAt
           updatedAt := now }⟩) := rfl

/-- Rewriting one election's entry keeps the invariant when the new entry
satisfies it. -/
theorem mutualExclusive_setKey (d : Option VoteDoc) (E : String) (newE : ElectionChoice)
    (h : mutualExclusive d)
    (hnew : ∀ c2, newE.candidateId = some c2 → c2 ∉ newE.dislikedCandidates) :
    mutualExclusive (some ⟨setKey (electionsOf d) E newE⟩) := by
  intro e entry he c2 hc2
  have he2 : lookupKV (setKey (electionsOf d) E newE) e = some entry := he
  rw [lookupKV_setKey] at he2
  by_cases heE : e = E
  · rw [if_pos heE] at he2
    cases he2
    exact hnew c2 hc2
  · rw [if_neg heE] at he2
    exact h e entry he2 c2 hc2

/-- Deleting one election's entry keeps the invariant. -/
theorem mutualExclusive_eraseKey (d : Option VoteDoc) (E : String)
    (h : mutualExclusive d) : mutualExclusive (some ⟨eraseKey (electionsOf d) E⟩) := by
  intro e entry he c2 hc2
  have he2 : lookupKV (eraseKey (electionsOf d) E) e = some entry := he
  rw [lookupKV_eraseKey] at he2
  by_cases heE : e = E
  · rw [if_pos heE] at he2
    cases he2
  · rw [if_neg heE] at he2
    exact h e entry he2 c2 hc2

/-- submitVote keeps the invariant: the voted candidate is filtered out
of the dislike list. -/
theorem mutualExclusive_submit (E c : String) (now : Nat) (d : Option VoteDoc)
    (h : mutualExclusive d) : mutualExclusive (some (submitVoteFn E c now d)) := by
  rw [submitVoteFn_eq]
  apply mutualExclusive_setKey d E _ h
  intro c2 hc2
  have hcc : c = c2 := Option.some.inj hc2
  subst hcc
  intro hmem
  rw [List.mem_filter] at hmem
  simp at hmem

/-- cancelVote keeps the invariant: the kept entry has no candidateId. -/
theorem mutualExclusive_cancel (E : String) (now : Nat) (d : Option VoteDoc)
    (h : mutualExclusive d) : mutualExclusive (cancelVoteFn E now d) := by
  cases d with
  | none => exact h
  | some doc =>
    rw [cancelVoteFn_some]
    cases hl : lookupKV doc.elections E with
    | none =>
      intro e entry he c2 hc2
      exact h e entry he c2 hc2
    | some entry0 =>
      show mutualExclusive (if entry0.dislikedCandidates ≠ [] then
          some ⟨setKey doc.elections E
            { candidateId := none
              dislikedCandidates := entry0.dislikedCandidates
              createdAt := entry0.createdAt
              updatedAt := now }⟩
        else some ⟨eraseKey doc.elections E⟩)
      by_cases hde : entry0.dislikedCandidates ≠ []
      · rw [if_pos hde]
        apply mutualExclusive_setKey (some doc) E _ h
        intro c2 hc2
        cases hc2
      · rw [if_neg hde]
        exact mutualExclusive_eraseKey (some doc) E h

/-- toggleDislike keeps the invariant: it refuses the current pick and
otherwise never adds the pick to the list. -/
theorem mutualExclusive_toggle (E c : String) (now : Nat) (d : Option VoteDoc)
    (h : mutualExclusive d) : mutualExclusive (toggleDislikeFn E c now d) := by
  rw [toggleDislikeFn_eq]
  by_cases hcond : ((lookupKV (electionsOf d) E).getD
      ⟨none, [], now, now⟩).candidateId = some c
  · rw [if_pos hcond]
    exact h
  · rw [if_neg hcond]
    apply mutualExclusive_setKey d E _ h
    intro c2 hc2
    have hne : c2 ≠ c := fun hcc => hcond (hcc ▸ hc2)
    have hnotin : c2 ∉ ((lookupKV (electionsOf d) E).getD
        ⟨none, [], now, now⟩).dislikedCandidates := by
      cases hl : lookupKV (electionsOf d) E with
      | none =>
        rw [hl] at hc2
        have hc3 : (none : Option String) = some c2 := hc2
        cases hc3
      | some entry0 =>
        rw [hl] at hc2
        have hc3 : entry0.candidateId = some c2 := hc2
        exact h E entry0 hl c2 hc3
    show c2 ∉ (if ((lookupKV (electionsOf d) E).getD
          ⟨none, [], now, now⟩).dislikedCandidates.contains c
        then ((lookupKV (electionsOf d) E).getD
          ⟨none, [], now, now⟩).dislikedCandidates.erase c
        else ((lookupKV (electionsOf d) E).getD
          ⟨none, [], now, now⟩).dislikedCandidates ++ [c])
    by_cases hmem : ((lookupKV (electionsOf d) E).getD
        ⟨none, [], now, now⟩).dislikedCandidates.contains c
    · rw [if_pos hmem]
      intro hin
      exact hnotin (List.mem_of_mem_erase hin)
    · rw [if_neg hmem]
      intro hin
      rcases List.mem_append.mp hin with hin | hin
      · exact hnotin hin
      · simp only [List.mem_singleton] at hin
        exact hne hin

/-- C2: from any document satisfying the mutual-exclusion invariant (an
absent document trivially does), every sequence of submit-vote,
cancel-vote and toggle-dislike operations preserves it: the stored
candidateId, when present, is never a member of the stored dislike
list — submitVote removes the voted candidate from the list, and
toggleDislike refuses to add the current pick. -/
theorem c2_mutual_exclusion (ops : List MutOp) (d : Option VoteDoc)
    (h : mutualExclusive d) : mutualExclusive (applyMutOps ops d) := by
  induction ops generalizing d with
  | nil => exact h
  | cons op rest ih =>
    have hstep : applyMutOps (op :: rest) d = applyMutOps rest (applyMutOp op d) := rfl
    rw [hstep]
    apply ih
    cases op with
    | submit e c now => exact mutualExclusive_submit e c now d h
    | cancel e now => exact mutualExclusive_cancel e now d h
    | toggle e c now => exact mutualExclusive_toggle e c now d h

/-- Witness for C2: dislike A, then vote A, starting from an absent
document. -/
theorem c2_mutual_exclusion_witness :
    mutualExclusive (applyMutOps [MutOp.toggle "e1" "A" 0, MutOp.submit "e1" "A" 1] none) :=
  c2_mutual_exclusion [MutOp.toggle "e1" "A" 0, MutOp.submit "e1" "A" 1] none (by
    intro e entry he
    simp [entryOfOpt, electionsOf, lookupKV] at he)

/-- C5 counterexample: a pass whose diff removes the dislike on d, run
against a stored record with totalDislikeMarks 5 and no counter for d
(drifted state), leaves totalDislikeMarks at 5: neither the dislikeCount
nor totalDislikeMarks is decremented, because the removal loop guards
both decrements behind a truthiness test on the stored counter. -/
theorem c5_dislike_removal_counterexample :
    "d" ∈ exCh5.beforeDislikes ∧ "d" ∉ exCh5.afterDislikes ∧
    exR5.totalDislikeMarks = 5 ∧
    (applyChange exCh5 none (some exR5)).totalDislikeMarks = 5 ∧
    ¬ (applyChange exCh5 none (some exR5)).totalDislikeMarks
        = exR5.totalDislikeMarks - 1 := by
  refine ⟨by decide, by decide, rfl, by decide, by decide⟩

/-- The added-dislikes loop adds adds.length to the total. -/
theorem applyAdds_snd (adds : List String) :
    ∀ st : List (String × Int) × Int, (applyAdds adds st).2 = st.2 + adds.length := by
  induction adds with
  | nil => intro st; simp [applyAdds]
  | cons a rest ih =>
    intro st
    have hstep : applyAdds (a :: rest) st =
        applyAdds rest (setKey st.1 a (lookupD st.1 a + 1), st.2 + 1) := rfl
    rw [hstep, ih]
    show st.2 + 1 + (rest.length : Int) = st.2 + ((rest.length + 1 : Nat) : Int)
    push_cast
    ring

/-- The added-dislikes loop, pointwise on counters, for a duplicate-free
add list. -/
theorem applyAdds_lookupD (adds : List String) :
    ∀ st : List (String × Int) × Int, adds.Nodup → ∀ k,
      lookupD (applyAdds adds st).1 k =
        lookupD st.1 k + (if k ∈ adds then 1 else 0) := by
  induction adds with
  | nil => intro st _ k; simp [applyAdds]
  | cons a rest ih =>
    intro st hnd k
    have hstep : applyAdds (a :: rest) st =
        applyAdds rest (setKey st.1 a (lookupD st.1 a + 1), st.2 + 1) := rfl
    rw [hstep, ih _ (List.nodup_cons.mp hnd).2 k]
    show lookupD (setKey st.1 a (lookupD st.1 a + 1)) k + _ = _
    rw [lookupD_setKey]
    by_cases hk : k = a
    · subst hk
      have hkr : k ∉ rest := (List.nodup_cons.mp hnd).1
      simp [hkr]
    · have : (k ∈ a :: rest) ↔ (k ∈ rest) := by simp [hk]
      rw [if_neg hk]
      by_cases hkr : k ∈ rest <;> simp [hkr, this]

/-- One step of the removed-dislikes loop, pointwise. -/
theorem applyRemoves_step (st : List (String × Int) × Int) (a : String)
    (hnn : looksNonneg st.1) :
    (∀ k, lookupD (if lookupD st.1 a ≠ 0 then
        ((if lookupD st.1 a - 1 ≤ 0 then eraseKey st.1 a
          else setKey st.1 a (lookupD st.1 a - 1)), st.2 - 1)
      else st).1 k =
      if k = a ∧ lookupD st.1 a ≠ 0 then lookupD st.1 a - 1 else lookupD st.1 k) ∧
    (if lookupD st.1 a ≠ 0 then
        ((if lookupD st.1 a - 1 ≤ 0 then eraseKey st.1 a
          else setKey st.1 a (lookupD st.1 a - 1)), st.2 - 1)
      else st).2 = st.2 - (if lookupD st.1 a ≠ 0 then 1 else 0) := by
  by_cases hg : lookupD st.1 a ≠ 0
  · have h1 : 1 ≤ lookupD st.1 a := by have := hnn a; omega
    rw [if_pos hg, if_pos hg]
    constructor
    · intro k
      by_cases hz : lookupD st.1 a - 1 ≤ 0
      · rw [if_pos hz]
        show lookupD (eraseKey st.1 a) k = _
        rw [lookupD_eraseKey]
        by_cases hk : k = a
        · rw [if_pos hk, if_pos ⟨hk, hg⟩]
          omega
        · rw [if_neg hk, if_neg (fun hc => hk hc.1)]
      · rw [if_neg hz]
        show lookupD (setKey st.1 a (lookupD st.1 a - 1)) k = _
        rw [lookupD_setKey]
        by_cases hk : k = a
        · rw [if_pos hk, if_pos ⟨hk, hg⟩]
        · rw [if_neg hk, if_neg (fun hc => hk hc.1)]
    · rfl
  · rw [if_neg hg, if_neg hg]
    constructor
    · intro k
      rw [if_neg (fun hc => hg hc.2)]
    · simp

/-- The removed-dislikes loop, pointwise on counters and on the total,
for a duplicate-free removal list over nonnegative counters: each listed
key with a nonzero counter is decremented once (with the total), keys
with a zero counter are skipped entirely. -/
theorem applyRemoves_props (rems : List String) :
    ∀ st : List (String × Int) × Int, rems.Nodup → looksNonneg st.1 →
      (∀ k, lookupD (applyRemoves rems st).1 k =
        (if k ∈ rems ∧ lookupD st.1 k ≠ 0 then lookupD st.1 k - 1 else lookupD st.1 k)) ∧
      (applyRemoves rems st).2 =
        st.2 - ((rems.filter (fun x => lookupD st.1 x ≠ 0)).length : Int) := by
  induction rems with
  | nil =>
    intro st _ _
    constructor
    · intro k; simp [applyRemoves]
    · simp [applyRemoves]
  | cons a rest ih =>
    intro st hnd hnn
    have hstep : applyRemoves (a :: rest) st = applyRemoves rest
        (if lookupD st.1 a ≠ 0 then
          ((if lookupD st.1 a - 1 ≤ 0 then eraseKey st.1 a
            else setKey st.1 a (lookupD st.1 a - 1)), st.2 - 1)
        else st) := rfl
    have step := applyRemoves_step st a hnn
    set st2 := (if lookupD st.1 a ≠ 0 then
        ((if lookupD st.1 a - 1 ≤ 0 then eraseKey st.1 a
          else setKey st.1 a (lookupD st.1 a - 1)), st.2 - 1)
      else st) with hst2
    have hnn2 : looksNonneg st2.1 := by
      intro k
      rw [step.1 k]
      split_ifs with hc
      · have := hnn a; omega
      · exact hnn k
    have hrec := ih st2 (List.nodup_cons.mp hnd).2 hnn2
    have hanotin : a ∉ rest := (List.nodup_cons.mp hnd).1
    have hsame : ∀ k, k ≠ a → lookupD st2.1 k = lookupD st.1 k := by
      intro k hk
      rw [step.1 k, if_neg (fun hc => hk hc.1)]
    constructor
    · intro k
      rw [hstep, hrec.1 k]
      by_cases hk : k = a
      · subst hk
        have hknr : (k ∈ rest ∧ lookupD st2.1 k ≠ 0) → False := by
          rintro ⟨hmem, _⟩; exact hanotin hmem
        rw [if_neg hknr, step.1 k]
        by_cases hg : lookupD st.1 k ≠ 0
        · rw [if_pos ⟨rfl, hg⟩, if_pos ⟨List.mem_cons_self k rest, hg⟩]
        · rw [if_neg (fun hc => hg hc.2), if_neg (fun hc => hg hc.2)]
      · rw [hsame k hk]
        have hmemiff : (k ∈ a :: rest) ↔ (k ∈ rest) := by simp [hk]
        by_cases hc : k ∈ rest ∧ lookupD st.1 k ≠ 0
        · rw [if_pos hc, if_pos ⟨hmemiff.mpr hc.1, hc.2⟩]
        · rw [if_neg hc, if_neg (fun hc2 => hc ⟨hmemiff.mp hc2.1, hc2.2⟩)]
    · rw [hstep, hrec.2, step.2]
      have hfcong : rest.filter (fun x => lookupD st2.1 x ≠ 0)
          = rest.filter (fun x => lookupD st.1 x ≠ 0) := by
        apply List.filter_congr
        intro x hx
        have hxa : x ≠ a := fun hc => hanotin (hc ▸ hx)
        rw [hsame x hxa]
      rw [hfcong]
      rw [List.filter_cons]
      by_cases hg : lookupD st.1 a ≠ 0
      · have hd : (decide (lookupD st.1 a ≠ 0)) = true := by simpa using hg
        rw [if_pos hg, if_pos hd, List.length_cons]
        push_cast
        ring
      · have hd : ¬ ((decide (lookupD st.1 a ≠ 0)) = true) := by simpa using hg
        rw [if_neg hg, if_neg hd]
        ring

/-- C5 amended: for every affected election, every id added to the
dislike set has its dislikeCount and totalDislikeMarks incremented; every
removed id whose stored dislikeCount is nonzero has both decremented
(zero entries removed like vote counts); a removed id whose stored
dislikeCount is zero or absent changes neither counter nor the total
(defensive guard). Stated for duplicate-free dislike lists (as
toggleDislike maintains them) over stored records with nonnegative
counters (as the engine writes them). -/
theorem c5_dislike_delta_amended (ch : Change) (roster : Option (List String))
    (stored : Option ElectionResult)
    (hb : ch.beforeDislikes.Nodup) (ha : ch.afterDislikes.Nodup)
    (hs : storedCountsNonneg stored) :
    ((applyChange ch roster stored).totalDislikeMarks =
      (if (storedData ch stored).totalDislikeMarks + ((addedOf ch).length : Int)
          - (((removedOf ch).filter (fun x =>
              lookupD (reconDislikes (storedData ch stored)) x ≠ 0)).length : Int) < 0
       then 0
       else (storedData ch stored).totalDislikeMarks + ((addedOf ch).length : Int)
          - (((removedOf ch).filter (fun x =>
              lookupD (reconDislikes (storedData ch stored)) x ≠ 0)).length : Int))) ∧
    (∀ cid ∈ removedOf ch,
      resDislikeVal (applyChange ch roster stored) cid =
        (if lookupD (reconDislikes (storedData ch stored)) cid ≠ 0
         then lookupD (reconDislikes (storedData ch stored)) cid - 1 else 0)) ∧
    (∀ cid ∈ addedOf ch,
      resDislikeVal (applyChange ch roster stored) cid =
        lookupD (reconDislikes (storedData ch stored)) cid + 1) := by
  have hnn0 : looksNonneg (reconDislikes (storedData ch stored)) :=
    looksNonneg_reconDislikes ch stored hs
  have hndadd : (addedOf ch).Nodup := ha.filter _
  have hndrem : (removedOf ch).Nodup := hb.filter _
  have hdisj1 : ∀ cid ∈ removedOf ch, cid ∉ addedOf ch := by
    intro cid hr hadd
    have hr2 := List.mem_filter.mp hr
    have ha2 := List.mem_filter.mp hadd
    have hmem : cid ∈ ch.afterDislikes := ha2.1
    have hcont : ch.afterDislikes.contains cid = true := by simpa using hmem
    rw [hcont] at hr2
    simpa using hr2.2
  have hdisj2 : ∀ cid ∈ addedOf ch, cid ∉ removedOf ch := by
    intro cid hadd hr
    exact hdisj1 cid hr hadd
  have hA1 := applyAdds_lookupD (addedOf ch)
    (reconDislikes (storedData ch stored), (storedData ch stored).totalDislikeMarks) hndadd
  have hA2 := applyAdds_snd (addedOf ch)
    (reconDislikes (storedData ch stored), (storedData ch stored).totalDislikeMarks)
  have hnn1 : looksNonneg (applyAdds (addedOf ch)
      (reconDislikes (storedData ch stored), (storedData ch stored).totalDislikeMarks)).1 :=
    looksNonneg_applyAdds _ _ hnn0
  have hR := applyRemoves_props (removedOf ch)
    (applyAdds (addedOf ch)
      (reconDislikes (storedData ch stored), (storedData ch stored).totalDislikeMarks))
    hndrem hnn1
  have hds2 : ∀ k, lookupD (dsAfter ch stored) k =
      (if k ∈ removedOf ch ∧
          lookupD (applyAdds (addedOf ch)
            (reconDislikes (storedData ch stored),
              (storedData ch stored).totalDislikeMarks)).1 k ≠ 0
       then lookupD (applyAdds (addedOf ch)
            (reconDislikes (storedData ch stored),
              (storedData ch stored).totalDislikeMarks)).1 k - 1
       else lookupD (applyAdds (addedOf ch)
            (reconDislikes (storedData ch stored),
              (storedData ch stored).totalDislikeMarks)).1 k) := hR.1
  have hkeep : ∀ x ∈ removedOf ch,
      lookupD (applyAdds (addedOf ch)
        (reconDislikes (storedData ch stored),
          (storedData ch stored).totalDislikeMarks)).1 x =
      lookupD (reconDislikes (storedData ch stored)) x := by
    intro x hx
    rw [hA1 x, if_neg (hdisj1 x hx)]
    show lookupD (reconDislikes (storedData ch stored)) x + 0 = _
    omega
  refine ⟨?_, ?_, ?_⟩
  · rw [applyChange_totalDislikeMarks]
    unfold tdmFinal
    have htdm : tdmAfter ch stored =
        (storedData ch stored).totalDislikeMarks + ((addedOf ch).length : Int)
          - (((removedOf ch).filter (fun x =>
              lookupD (reconDislikes (storedData ch stored)) x ≠ 0)).length : Int) := by
      show (applyRemoves (removedOf ch) (applyAdds (addedOf ch)
          (reconDislikes (storedData ch stored),
            (storedData ch stored).totalDislikeMarks))).2 = _
      rw [hR.2, hA2]
      have hfcong : (removedOf ch).filter (fun x =>
          lookupD (applyAdds (addedOf ch)
            (reconDislikes (storedData ch stored),
              (storedData ch stored).totalDislikeMarks)).1 x ≠ 0)
          = (removedOf ch).filter (fun x =>
              lookupD (reconDislikes (storedData ch stored)) x ≠ 0) := by
        apply List.filter_congr
        intro x hx
        rw [hkeep x hx]
      rw [hfcong]
    rw [htdm]
  · intro cid hcid
    have hfinal : lookupD (dsAfter ch stored) cid =
        (if lookupD (reconDislikes (storedData ch stored)) cid ≠ 0
         then lookupD (reconDislikes (storedData ch stored)) cid - 1
         else lookupD (reconDislikes (storedData ch stored)) cid) := by
      rw [hds2 cid, hkeep cid hcid]
      by_cases hz : lookupD (reconDislikes (storedData ch stored)) cid ≠ 0
      · rw [if_pos ⟨hcid, hz⟩, if_pos hz]
      · rw [if_neg (fun hc => hz hc.2), if_neg hz]
    rw [resDislikeVal_applyChange, hfinal]
    have hv := hnn0 cid
    split_ifs <;> omega
  · intro cid hcid
    have hnotrem : cid ∉ removedOf ch := hdisj2 cid hcid
    have hval : lookupD (dsAfter ch stored) cid =
        lookupD (reconDislikes (storedData ch stored)) cid + 1 := by
      rw [hds2 cid, if_neg (fun hc => hnotrem hc.1), hA1 cid, if_pos hcid]
    rw [resDislikeVal_applyChange, hval]
    have hv := hnn0 cid
    rw [if_pos (by omega)]

/-- Witness for the amended C5: removing the dislike on d (stored
counter 2) while adding one on e drops d's readable dislike count to 1. -/
theorem c5_dislike_delta_amended_witness :
    resDislikeVal (applyChange ⟨"e1", none, none, ["d"], ["e"]⟩ none
      (some ⟨"e1", 0, 3, [("d", ⟨0, 0, some 2, some 100⟩)]⟩)) "d" = 1 := by
  have h := (c5_dislike_delta_amended ⟨"e1", none, none, ["d"], ["e"]⟩ none
    (some ⟨"e1", 0, 3, [("d", ⟨0, 0, some 2, some 100⟩)]⟩)
    (by decide) (by decide)
    (by
      intro r hr
      cases hr
      intro p hp
      have hp2 : p = ("d", (⟨0, 0, some 2, some 100⟩ : CandidateResult)) := by simpa using hp
      subst hp2
      exact ⟨by norm_num, by norm_num⟩)).2.1 "d" (by decide)
  rw [h]
  decide

/-- Updating one element of a duplicate-free list changes a count by the
two indicator values. -/
theorem countP_update_int {α : Type} [DecidableEq α] (l : List α) (hnd : l.Nodup)
    (u : α) (hu : u ∈ l) (p q : α → Bool) (hsame : ∀ v ∈ l, v ≠ u → q v = p v) :
    (l.countP q : Int) = (l.countP p : Int)
      + (if q u = true then 1 else 0) - (if p u = true then 1 else 0) := by
  induction l with
  | nil => cases hu
  | cons a rest ih =>
    rw [List.countP_cons, List.countP_cons]
    rcases List.mem_cons.mp hu with rfl | hur
    · have hrest : rest.countP q = rest.countP p := by
        apply List.countP_congr
        intro v hv
        have hvne : v ≠ u := fun hc => (List.nodup_cons.mp hnd).1 (hc ▸ hv)
        rw [hsame v (List.mem_cons_of_mem _ hv) hvne]
      rw [hrest]
      by_cases hq : q u = true <;> by_cases hp : p u = true <;>
        simp [hq, hp]
    · have hane : a ≠ u := fun hc => (List.nodup_cons.mp hnd).1 (hc ▸ hur)
      have hhead : q a = p a := hsame a (List.mem_cons_self a rest) hane
      have hrec := ih (List.nodup_cons.mp hnd).2 hur
        (fun v hv hvne => hsame v (List.mem_cons_of_mem a hv) hvne)
      rw [hhead]
      by_cases hp : p a = true <;> simp [hp] <;> omega

/-- A step that rewrites only user u's document changes the tallies by
the indicators of u's old and new pick. -/
theorem counts_update (users : List String) (hnd : users.Nodup) (u : String)
    (hu : u ∈ users) (st st2 : SysState) (E : String)
    (hothers : ∀ v, v ≠ u → st2.votes v = st.votes v) :
    (∀ x, (countFor st2 E users x : Int) = (countFor st E users x : Int)
      + (if (userCand st2 E u == some x) = true then 1 else 0)
      - (if (userCand st E u == some x) = true then 1 else 0)) ∧
    ((countSet st2 E users : Int) = (countSet st E users : Int)
      + (if (userCand st2 E u).isSome = true then 1 else 0)
      - (if (userCand st E u).isSome = true then 1 else 0)) := by
  constructor
  · intro x
    apply countP_update_int users hnd u hu
    intro v hv hvne
    unfold userCand
    rw [hothers v hvne]
  · apply countP_update_int users hnd u hu
    intro v hv hvne
    unfold userCand
    rw [hothers v hvne]

/-- The pick of a single-entry map at its own key. -/
theorem candidateOf_single (E : String) (e2 : ElectionChoice) :
    candidateOf [(E, e2)] E = e2.candidateId := by
  unfold candidateOf
  have h : lookupKV [(E, e2)] E = some e2 := by simp [lookupKV]
  rw [h]
  rfl

/-- Reconstructed counters read back as the stored counts. -/
theorem lookupD_reconCounts (s : Option ElectionResult) (ch : Change) (x : String) :
    lookupD (reconCounts (storedData ch s)) x = resCount s x := by
  cases s with
  | none =>
    show lookupD (reconCounts (emptyResult ch.electionId)) x = 0
    simp [reconCounts, emptyResult, lookupD, lookupKV]
  | some r =>
    show lookupD (reconCounts r) x = ((lookupKV r.candidates x).map (fun e => e.count)).getD 0
    unfold lookupD reconCounts
    rw [lookupKV_map_entry r.candidates (fun p => p.2.count) x]

/-- The stored total read by the transaction. -/
theorem storedData_totalVotes (s : Option ElectionResult) (ch : Change) :
    (storedData ch s).totalVotes = resTotal s := by
  cases s <;> rfl

/-- Aggregation pass for a fresh vote: the new candidate's count and the
total each grow by one. -/
theorem applyChange_new_vote (E c : String) (hc : c ≠ "") (roster : Option (List String))
    (s : Option ElectionResult) (htv : 0 ≤ resTotal s) :
    (∀ x, resCount (some (applyChange ⟨E, none, some c, [], []⟩ roster s)) x =
      (if x = c then resCount s x + 1 else resCount s x)) ∧
    resTotal (some (applyChange ⟨E, none, some c, [], []⟩ roster s)) = resTotal s + 1 := by
  have hvd := voteDelta_new c hc (reconCounts (storedData ⟨E, none, some c, [], []⟩ s))
    (storedData ⟨E, none, some c, [], []⟩ s).totalVotes
  constructor
  · intro x
    rw [resCount_applyChange]
    unfold countsAfter
    rw [hvd]
    show lookupD (setKey _ c (lookupD _ c + 1)) x = _
    rw [lookupD_setKey]
    by_cases hx : x = c
    · rw [if_pos hx, if_pos hx, lookupD_reconCounts, hx]
    · rw [if_neg hx, if_neg hx, lookupD_reconCounts]
  · show tvFinal ⟨E, none, some c, [], []⟩ s = _
    unfold tvFinal tvAfter
    rw [hvd]
    show (if (storedData ⟨E, none, some c, [], []⟩ s).totalVotes + 1 < 0 then 0
      else (storedData ⟨E, none, some c, [], []⟩ s).totalVotes + 1) = _
    rw [storedData_totalVotes]
    rw [if_neg (by omega)]

/-- Aggregation pass for a cancellation with consistent stored data: the
cancelled candidate's count and the total each drop by one. -/
theorem applyChange_cancel_vote (E c2 : String) (hc : c2 ≠ "")
    (roster : Option (List String)) (s : Option ElectionResult)
    (hcount : 1 ≤ resCount s c2) (htv : 1 ≤ resTotal s) :
    (∀ x, resCount (some (applyChange ⟨E, some c2, none, [], []⟩ roster s)) x =
      (if x = c2 then resCount s x - 1 else resCount s x)) ∧
    resTotal (some (applyChange ⟨E, some c2, none, [], []⟩ roster s)) = resTotal s - 1 := by
  have hvd := voteDelta_cancel c2 hc (reconCounts (storedData ⟨E, some c2, none, [], []⟩ s))
    (storedData ⟨E, some c2, none, [], []⟩ s).totalVotes
  have hpos : 1 ≤ lookupD (reconCounts (storedData ⟨E, some c2, none, [], []⟩ s)) c2 := by
    rw [lookupD_reconCounts]
    exact hcount
  constructor
  · intro x
    rw [resCount_applyChange]
    unfold countsAfter
    rw [hvd]
    show lookupD (decEntry _ c2) x = _
    rw [lookupD_decEntry_of_pos _ c2 hpos x]
    by_cases hx : x = c2
    · rw [if_pos hx, if_pos hx, lookupD_reconCounts, hx]
    · rw [if_neg hx, if_neg hx, lookupD_reconCounts]
  · show tvFinal ⟨E, some c2, none, [], []⟩ s = _
    unfold tvFinal tvAfter
    rw [hvd]
    show (if (storedData ⟨E, some c2, none, [], []⟩ s).totalVotes - 1 < 0 then 0
      else (storedData ⟨E, some c2, none, [], []⟩ s).totalVotes - 1) = _
    rw [storedData_totalVotes]
    rw [if_neg (by omega)]

/-- Aggregation pass for a vote switch with consistent stored data: the
old candidate drops by one, the new one grows by one, the total is
unchanged. -/
theorem applyChange_switch_vote (E c2 c : String) (hc2 : c2 ≠ "") (hc : c ≠ "")
    (hne : c2 ≠ c) (roster : Option (List String)) (s : Option ElectionResult)
    (hcount : 1 ≤ resCount s c2) (htv : 0 ≤ resTotal s) :
    (∀ x, resCount (some (applyChange ⟨E, some c2, some c, [], []⟩ roster s)) x =
      (if x = c then resCount s x + 1
       else if x = c2 then resCount s x - 1 else resCount s x)) ∧
    resTotal (some (applyChange ⟨E, some c2, some c, [], []⟩ roster s)) = resTotal s := by
  have hvd := voteDelta_switch c2 c hc2 hc hne
    (reconCounts (storedData ⟨E, some c2, some c, [], []⟩ s))
    (storedData ⟨E, some c2, some c, [], []⟩ s).totalVotes
  have hpos : 1 ≤ lookupD (reconCounts (storedData ⟨E, some c2, some c, [], []⟩ s)) c2 := by
    rw [lookupD_reconCounts]
    exact hcount
  constructor
  · intro x
    rw [resCount_applyChange]
    unfold countsAfter
    rw [hvd]
    show lookupD (setKey (decEntry _ c2) c (lookupD (decEntry _ c2) c + 1)) x = _
    rw [lookupD_setKey]
    by_cases hx : x = c
    · rw [if_pos hx, if_pos hx]
      have hcc2 : c ≠ c2 := fun hcc => hne hcc.symm
      rw [lookupD_decEntry_ne _ c2 c hcc2, lookupD_reconCounts, hx]
    · rw [if_neg hx, if_neg hx, lookupD_decEntry_of_pos _ c2 hpos x]
      by_cases hx2 : x = c2
      · rw [if_pos hx2, if_pos hx2, lookupD_reconCounts, hx2]
      · rw [if_neg hx2, if_neg hx2, lookupD_reconCounts]
  · show tvFinal ⟨E, some c2, some c, [], []⟩ s = _
    unfold tvFinal tvAfter
    rw [hvd]
    show (if (storedData ⟨E, some c2, some c, [], []⟩ s).totalVotes < 0 then 0
      else (storedData ⟨E, some c2, some c, [], []⟩ s).totalVotes) = _
    rw [storedData_totalVotes]
    rw [if_neg (by omega)]

/-- Submitting into an absent document creates the single entry. -/
theorem submitVoteFn_none (E c : String) (now : Nat) :
    submitVoteFn E c now none = ⟨[(E, ⟨some c, [], now, now⟩)]⟩ := rfl

/-- Submitting into an empty elections map creates the single entry. -/
theorem submitVoteFn_empty (E c : String) (now : Nat) :
    submitVoteFn E c now (some ⟨[]⟩) = ⟨[(E, ⟨some c, [], now, now⟩)]⟩ := rfl

/-- Submitting over an existing dislike-free entry overwrites the pick
and keeps createdAt. -/
theorem submitVoteFn_single (E c c2 : String) (cr up now : Nat) :
    submitVoteFn E c now (some ⟨[(E, ⟨some c2, [], cr, up⟩)]⟩) =
      ⟨[(E, ⟨some c, [], cr, now⟩)]⟩ := by
  rw [submitVoteFn_eq]
  simp [electionsOf, lookupKV, setKey]

/-- Cancelling in an empty elections map writes the map back unchanged. -/
theorem cancelVoteFn_empty (E : String) (now : Nat) :
    cancelVoteFn E now (some ⟨[]⟩) = some ⟨[]⟩ := rfl

/-- Cancelling a dislike-free entry deletes it. -/
theorem cancelVoteFn_single (E c2 : String) (cr up now : Nat) :
    cancelVoteFn E now (some ⟨[(E, ⟨some c2, [], cr, up⟩)]⟩) = some ⟨[]⟩ := by
  rw [cancelVoteFn_some]
  have h : lookupKV [(E, (⟨some c2, [], cr, up⟩ : ElectionChoice))] E =
      some ⟨some c2, [], cr, up⟩ := by simp [lookupKV]
  rw [h]
  simp [eraseKey]

/-- Diff of a fresh single-entry write. -/
theorem computeAffected_fresh (E c : String) (cr up : Nat) :
    computeAffected [] [(E, ⟨some c, [], cr, up⟩)] = [⟨E, none, some c, [], []⟩] := by
  simp [computeAffected, dedupFirst, dedupFirstAux, candidateOf, dislikesOf, lookupKV,
    dislikesDiffer]

/-- Diff of an overwrite of the single entry. -/
theorem computeAffected_overwrite (E c2 c : String) (cr up cr2 up2 : Nat) :
    computeAffected [(E, ⟨some c2, [], cr, up⟩)] [(E, ⟨some c, [], cr2, up2⟩)] =
      (if c2 = c then [] else [⟨E, some c2, some c, [], []⟩]) := by
  by_cases hcc : c2 = c
  · subst hcc
    rw [if_pos rfl]
    simp [computeAffected, dedupFirst, dedupFirstAux, candidateOf, dislikesOf, lookupKV,
      dislikesDiffer]
  · rw [if_neg hcc]
    have hcc2 : (some c2 : Option String) ≠ some c := by simp [hcc]
    simp [computeAffected, dedupFirst, dedupFirstAux, candidateOf, dislikesOf, lookupKV,
      dislikesDiffer, hcc2]

/-- Diff of a deletion of the single entry. -/
theorem computeAffected_delete (E c2 : String) (cr up : Nat) :
    computeAffected [(E, ⟨some c2, [], cr, up⟩)] [] = [⟨E, some c2, none, [], []⟩] := by
  simp [computeAffected, dedupFirst, dedupFirstAux, candidateOf, dislikesOf, lookupKV,
    dislikesDiffer]

/-- A pass with no affected election leaves the result store untouched. -/
theorem runPass_nil (bef aft : Option VoteDoc) (rosterOf : String → Option (List String))
    (results : String → Option ElectionResult)
    (h : computeAffected (electionsOf bef) (electionsOf aft) = []) :
    runPass bef aft rosterOf results = results := by
  unfold runPass
  rw [h, List.foldl_nil]

/-- A pass with one affected election rewrites that election's record. -/
theorem runPass_single (bef aft : Option VoteDoc) (rosterOf : String → Option (List String))
    (results : String → Option ElectionResult) (ch : Change)
    (h : computeAffected (electionsOf bef) (electionsOf aft) = [ch]) :
    runPass bef aft rosterOf results =
      (fun e => if e = ch.electionId
        then some (applyChange ch (rosterOf ch.electionId) (results ch.electionId))
        else results e) := by
  unfold runPass
  rw [h, List.foldl_cons, List.foldl_nil]

/-- The pick of an empty map. -/
theorem candidateOf_nil (x : String) : candidateOf [] x = none := rfl

/-- Submitting into any document with an empty elections map. -/
theorem submitVoteFn_of_empty (E c : String) (now : Nat) (d : Option VoteDoc)
    (h : electionsOf d = []) :
    submitVoteFn E c now d = ⟨[(E, ⟨some c, [], now, now⟩)]⟩ := by
  rw [submitVoteFn_eq, h]
  rfl

/-- A user currently choosing c2 makes that candidate's tally positive. -/
theorem countFor_pos (st : SysState) (E : String) (users : List String) (u : String)
    (hu : u ∈ users) (c2 : String) (hc : userCand st E u = some c2) :
    1 ≤ (countFor st E users c2 : Int) := by
  have h : 0 < countFor st E users c2 :=
    List.countP_pos_iff.mpr ⟨u, hu, by simp [hc]⟩
  omega

/-- A user with a set pick makes the voter tally positive. -/
theorem countSet_pos (st : SysState) (E : String) (users : List String) (u : String)
    (hu : u ∈ users) (c2 : String) (hc : userCand st E u = some c2) :
    1 ≤ (countSet st E users : Int) := by
  have h : 0 < countSet st E users :=
    List.countP_pos_iff.mpr ⟨u, hu, by simp [hc]⟩
  omega

/-- One system step preserves the conservation invariant. -/
theorem sysStep_inv (E : String) (users : List String) (hnd : users.Nodup)
    (st : SysState) (op : SysOp) (hu : op.user ∈ users) (hok : actOK op.act = true)
    (hinv : sysInv E users st) : sysInv E users (sysStep E st op) := by
  obtain ⟨hdoc, htot, hcnt⟩ := hinv
  have hvotes2 : (sysStep E st op).votes =
      (fun v => if v = op.user then applyVoteAct E op.act (st.votes op.user)
        else st.votes v) := rfl
  have hresults2 : (sysStep E st op).results =
      runPass (st.votes op.user) (applyVoteAct E op.act (st.votes op.user))
        (fun _ => op.roster) st.results := rfl
  have hothers : ∀ v, v ≠ op.user → (sysStep E st op).votes v = st.votes v := by
    intro v hv
    rw [hvotes2]
    exact if_neg hv
  have hself : (sysStep E st op).votes op.user =
      applyVoteAct E op.act (st.votes op.user) := by
    rw [hvotes2]
    exact if_pos rfl
  have hup := counts_update users hnd op.user hu st (sysStep E st op) E hothers
  have htot0 : 0 ≤ resTotal (st.results E) := by
    rw [htot]
    exact Int.natCast_nonneg _
  have hdocu := hdoc op.user
  -- generic finisher for steps whose pass touches nothing and whose user
  -- keeps the same pick
  have finish_nochange : ∀ (_ : (sysStep E st op).results = st.results)
      (_ : userCand (sysStep E st op) E op.user = userCand st E op.user)
      (_ : docOK E ((sysStep E st op).votes op.user)),
      sysInv E users (sysStep E st op) := by
    intro hres hsame hdok
    refine ⟨?_, ?_, ?_⟩
    · intro v
      by_cases hv : v = op.user
      · subst hv
        exact hdok
      · rw [hothers v hv]
        exact hdoc v
    · rw [hres, htot]
      have h2 := hup.2
      rw [hsame] at h2
      by_cases hcase : (userCand st E op.user).isSome = true <;>
        simp [hcase] at h2 <;> omega
    · intro x
      rw [hres, hcnt x]
      have h1 := hup.1 x
      rw [hsame] at h1
      by_cases hcase : (userCand st E op.user == some x) = true <;>
        simp [hcase] at h1 <;> omega
  -- now the real case split on the action and the document shape
  cases hact : op.act with
  | submit c now =>
    have hc : c ≠ "" := by
      rw [hact] at hok
      simpa [actOK] using hok
    have haftgen : applyVoteAct E op.act (st.votes op.user) =
        some (submitVoteFn E c now (st.votes op.user)) := by rw [hact]; rfl
    rcases hshape : st.votes op.user with _ | doc
    · -- absent document: fresh vote
      have helec : electionsOf (st.votes op.user) = [] := by rw [hshape]; rfl
      have haft : applyVoteAct E op.act (st.votes op.user) =
          some ⟨[(E, ⟨some c, [], now, now⟩)]⟩ := by
        rw [haftgen, submitVoteFn_of_empty E c now _ helec]
      have hca : computeAffected (electionsOf (st.votes op.user))
          (electionsOf (some (⟨[(E, ⟨some c, [], now, now⟩)]⟩ : VoteDoc))) =
            [⟨E, none, some c, [], []⟩] := by
        rw [helec]
        exact computeAffected_fresh E c now now
      have hres : (sysStep E st op).results =
          (fun e => if e = E then some (applyChange ⟨E, none, some c, [], []⟩ op.roster
            (st.results E)) else st.results e) := by
        rw [hresults2, haft]
        exact runPass_single _ _ _ _ _ hca
      have hucand1 : userCand st E op.user = none := by
        unfold userCand
        rw [helec]
        rfl
      have hucand2 : userCand (sysStep E st op) E op.user = some c := by
        unfold userCand
        rw [hself, haft]
        show candidateOf [(E, ⟨some c, [], now, now⟩)] E = some c
        rw [candidateOf_single]
      have hagg := applyChange_new_vote E c hc op.roster (st.results E) htot0
      refine ⟨?_, ?_, ?_⟩
      · intro v
        by_cases hv : v = op.user
        · subst hv
          rw [hself, haft]
          right
          exact ⟨c, now, now, hc, rfl⟩
        · rw [hothers v hv]
          exact hdoc v
      · rw [hres]
        show resTotal (if E = E then some (applyChange ⟨E, none, some c, [], []⟩ op.roster
          (st.results E)) else st.results E) = _
        rw [if_pos rfl, hagg.2, htot]
        have h2 := hup.2
        rw [hucand1, hucand2] at h2
        simp at h2
        omega
      · intro x
        rw [hres]
        show resCount (if E = E then some (applyChange ⟨E, none, some c, [], []⟩ op.roster
          (st.results E)) else st.results E) x = _
        rw [if_pos rfl, hagg.1 x]
        have h1 := hup.1 x
        rw [hucand1, hucand2] at h1
        by_cases hx : x = c
        · rw [if_pos hx, hx]
          rw [hx] at h1
          simp at h1
          rw [hcnt c]
          omega
        · have hxc : (some c == some x) = false := by simp; exact fun hcc => hx hcc.symm
          rw [hxc] at h1
          simp at h1
          rw [if_neg hx, hcnt x]
          omega
    · -- present document
      have hdv := hdoc op.user
      rw [hshape] at hdv
      rcases hdv with hempty | ⟨c2, cr, up, hc2, hsingle⟩
      · -- empty elections map: fresh vote as well
        have helec : electionsOf (st.votes op.user) = [] := by
          rw [hshape]
          exact hempty
        have haft : applyVoteAct E op.act (st.votes op.user) =
            some ⟨[(E, ⟨some c, [], now, now⟩)]⟩ := by
          rw [haftgen, submitVoteFn_of_empty E c now _ helec]
        have hca : computeAffected (electionsOf (st.votes op.user))
            (electionsOf (some (⟨[(E, ⟨some c, [], now, now⟩)]⟩ : VoteDoc))) =
              [⟨E, none, some c, [], []⟩] := by
          rw [helec]
          exact computeAffected_fresh E c now now
        have hres : (sysStep E st op).results =
            (fun e => if e = E then some (applyChange ⟨E, none, some c, [], []⟩ op.roster
              (st.results E)) else st.results e) := by
          rw [hresults2, haft]
          exact runPass_single _ _ _ _ _ hca
        have hucand1 : userCand st E op.user = none := by
          unfold userCand
          rw [helec]
          rfl
        have hucand2 : userCand (sysStep E st op) E op.user = some c := by
          unfold userCand
          rw [hself, haft]
          show candidateOf [(E, ⟨some c, [], now, now⟩)] E = some c
          rw [candidateOf_single]
        have hagg := applyChange_new_vote E c hc op.roster (st.results E) htot0
        refine ⟨?_, ?_, ?_⟩
        · intro v
          by_cases hv : v = op.user
          · subst hv
            rw [hself, haft]
            right
            exact ⟨c, now, now, hc, rfl⟩
          · rw [hothers v hv]
            exact hdoc v
        · rw [hres]
          show resTotal (if E = E then some (applyChange ⟨E, none, some c, [], []⟩ op.roster
            (st.results E)) else st.results E) = _
          rw [if_pos rfl, hagg.2, htot]
          have h2 := hup.2
          rw [hucand1, hucand2] at h2
          simp at h2
          omega
        · intro x
          rw [hres]
          show resCount (if E = E then some (applyChange ⟨E, none, some c, [], []⟩ op.roster
            (st.results E)) else st.results E) x = _
          rw [if_pos rfl, hagg.1 x]
          have h1 := hup.1 x
          rw [hucand1, hucand2] at h1
          by_cases hx : x = c
          · rw [if_pos hx, hx]
            rw [hx] at h1
            simp at h1
            rw [hcnt c]
            omega
          · have hxc : (some c == some x) = false := by simp; exact fun hcc => hx hcc.symm
            rw [hxc] at h1
            simp at h1
            rw [if_neg hx, hcnt x]
            omega
      · -- single entry for E with pick c2
        have haft : applyVoteAct E op.act (st.votes op.user) =
            some ⟨[(E, ⟨some c, [], cr, now⟩)]⟩ := by
          rw [haftgen, hshape]
          have hdoc2 : doc = ⟨[(E, ⟨some c2, [], cr, up⟩)]⟩ := by
            cases doc
            exact congrArg VoteDoc.mk hsingle
          rw [hdoc2, submitVoteFn_single]
        have hucand1 : userCand st E op.user = some c2 := by
          unfold userCand
          rw [hshape]
          show candidateOf doc.elections E = some c2
          rw [hsingle, candidateOf_single]
        have hucand2 : userCand (sysStep E st op) E op.user = some c := by
          unfold userCand
          rw [hself, haft]
          show candidateOf [(E, ⟨some c, [], cr, now⟩)] E = some c
          rw [candidateOf_single]
        have hcagen : computeAffected (electionsOf (st.votes op.user))
            (electionsOf (some (⟨[(E, ⟨some c, [], cr, now⟩)]⟩ : VoteDoc))) =
              (if c2 = c then [] else [⟨E, some c2, some c, [], []⟩]) := by
          rw [hshape]
          show computeAffected doc.elections _ = _
          rw [hsingle]
          exact computeAffected_overwrite E c2 c cr up cr now
        by_cases hcc : c2 = c
        · -- same candidate: nothing affected, pick unchanged
          apply finish_nochange
          · rw [hresults2, haft]
            apply runPass_nil
            rw [hcagen, if_pos hcc]
          · rw [hucand1, hucand2, hcc]
          · rw [hself, haft]
            right
            exact ⟨c, cr, now, hc, rfl⟩
        · -- switch
          have hcount : 1 ≤ resCount (st.results E) c2 := by
            rw [hcnt c2]
            exact countFor_pos st E users op.user hu c2 hucand1
          have hagg := applyChange_switch_vote E c2 c hc2 hc hcc op.roster
            (st.results E) hcount htot0
          have hres : (sysStep E st op).results =
              (fun e => if e = E then some (applyChange ⟨E, some c2, some c, [], []⟩ op.roster
                (st.results E)) else st.results e) := by
            rw [hresults2, haft]
            exact runPass_single _ _ _ _ ⟨E, some c2, some c, [], []⟩ (by
              rw [hcagen, if_neg hcc])
          refine ⟨?_, ?_, ?_⟩
          · intro v
            by_cases hv : v = op.user
            · subst hv
              rw [hself, haft]
              right
              exact ⟨c, cr, now, hc, rfl⟩
            · rw [hothers v hv]
              exact hdoc v
          · rw [hres]
            show resTotal (if E = E then some (applyChange ⟨E, some c2, some c, [], []⟩
              op.roster (st.results E)) else st.results E) = _
            rw [if_pos rfl, hagg.2, htot]
            have h2 := hup.2
            rw [hucand1, hucand2] at h2
            simp at h2
            omega
          · intro x
            rw [hres]
            show resCount (if E = E then some (applyChange ⟨E, some c2, some c, [], []⟩
              op.roster (st.results E)) else st.results E) x = _
            rw [if_pos rfl, hagg.1 x]
            have h1 := hup.1 x
            rw [hucand1, hucand2] at h1
            by_cases hx : x = c
            · rw [if_pos hx, hx]
              rw [hx] at h1
              have hxc2 : (some c2 == some c) = false := by simp [hcc]
              rw [hxc2] at h1
              simp at h1
              rw [hcnt c]
              omega
            · have hxc : (some c == some x) = false := by simp; exact fun hcc2 => hx hcc2.symm
              rw [hxc] at h1
              by_cases hx2 : x = c2
              · rw [if_neg hx, if_pos hx2, hx2]
                rw [hx2] at h1
                simp at h1
                rw [hcnt c2]
                omega
              · have hxc2 : (some c2 == some x) = false := by
                  simp; exact fun hcc2 => hx2 hcc2.symm
                rw [hxc2] at h1
                simp at h1
                rw [if_neg hx, if_neg hx2, hcnt x]
                omega
  | cancel now =>
    have haftgen : applyVoteAct E op.act (st.votes op.user) =
        cancelVoteFn E now (st.votes op.user) := by rw [hact]; rfl
    rcases hshape : st.votes op.user with _ | doc
    · -- absent document: cancel is a no-op without a write
      apply finish_nochange
      · rw [hresults2, haftgen, hshape]
        apply runPass_nil
        rfl
      · unfold userCand
        rw [hself, haftgen, hshape]
        rfl
      · rw [hself, haftgen, hshape]
        trivial
    · have hdv := hdoc op.user
      rw [hshape] at hdv
      rcases hdv with hempty | ⟨c2, cr, up, hc2, hsingle⟩
      · -- empty elections map: write of an identical document
        have hdoc2 : doc = ⟨[]⟩ := by
          cases doc
          exact congrArg VoteDoc.mk hempty
        apply finish_nochange
        · rw [hresults2, haftgen, hshape, hdoc2, cancelVoteFn_empty]
          apply runPass_nil
          rfl
        · unfold userCand
          rw [hself, haftgen, hshape, hdoc2, cancelVoteFn_empty]
        · rw [hself, haftgen, hshape, hdoc2, cancelVoteFn_empty]
          left
          rfl
      · -- single entry: deletion
        have hdoc2 : doc = ⟨[(E, ⟨some c2, [], cr, up⟩)]⟩ := by
          cases doc
          exact congrArg VoteDoc.mk hsingle
        have haft : applyVoteAct E op.act (st.votes op.user) = some ⟨[]⟩ := by
          rw [haftgen, hshape, hdoc2, cancelVoteFn_single]
        have hucand1 : userCand st E op.user = some c2 := by
          unfold userCand
          rw [hshape]
          show candidateOf doc.elections E = some c2
          rw [hsingle, candidateOf_single]
        have hucand2 : userCand (sysStep E st op) E op.user = none := by
          unfold userCand
          rw [hself, haft]
          rfl
        have hca : computeAffected (electionsOf (st.votes op.user))
            (electionsOf (some (⟨[]⟩ : VoteDoc))) = [⟨E, some c2, none, [], []⟩] := by
          rw [hshape]
          show computeAffected doc.elections [] = _
          rw [hsingle]
          exact computeAffected_delete E c2 cr up
        have hcount : 1 ≤ resCount (st.results E) c2 := by
          rw [hcnt c2]
          exact countFor_pos st E users op.user hu c2 hucand1
        have htv1 : 1 ≤ resTotal (st.results E) := by
          rw [htot]
          exact countSet_pos st E users op.user hu c2 hucand1
        have hagg := applyChange_cancel_vote E c2 hc2 op.roster (st.results E) hcount htv1
        have hres : (sysStep E st op).results =
            (fun e => if e = E then some (applyChange ⟨E, some c2, none, [], []⟩ op.roster
              (st.results E)) else st.results e) := by
          rw [hresults2, haft]
          exact runPass_single _ _ _ _ _ hca
        refine ⟨?_, ?_, ?_⟩
        · intro v
          by_cases hv : v = op.user
          · subst hv
            rw [hself, haft]
            left
            rfl
          · rw [hothers v hv]
            exact hdoc v
        · rw [hres]
          show resTotal (if E = E then some (applyChange ⟨E, some c2, none, [], []⟩
            op.roster (st.results E)) else st.results E) = _
          rw [if_pos rfl, hagg.2, htot]
          have h2 := hup.2
          rw [hucand1, hucand2] at h2
          simp at h2
          omega
        · intro x
          rw [hres]
          show resCount (if E = E then some (applyChange ⟨E, some c2, none, [], []⟩
            op.roster (st.results E)) else st.results E) x = _
          rw [if_pos rfl, hagg.1 x]
          have h1 := hup.1 x
          rw [hucand1, hucand2] at h1
          by_cases hx2 : x = c2
          · rw [if_pos hx2, hx2]
            rw [hx2] at h1
            simp at h1
            rw [hcnt c2]
            omega
          · have hxc2 : (some c2 == some x) = false := by
              simp; exact fun hcc2 => hx2 hcc2.symm
            rw [hxc2] at h1
            simp at h1
            rw [if_neg hx2, hcnt x]
            omega

/-- The empty system satisfies the conservation invariant. -/
theorem sysInv_init (E : String) (users : List String) : sysInv E users initSys := by
  refine ⟨fun u => trivial, ?_, fun c => ?_⟩
  · have h : countSet initSys E users = 0 := by
      unfold countSet
      rw [List.countP_eq_zero]
      intro a ha
      simp [userCand, initSys, electionsOf, candidateOf, lookupKV]
    rw [h]
    rfl
  · have h : countFor initSys E users c = 0 := by
      unfold countFor
      rw [List.countP_eq_zero]
      intro a ha
      simp [userCand, initSys, electionsOf, candidateOf, lookupKV]
    rw [h]
    rfl

/-- Any run of legal operations preserves the conservation invariant. -/
theorem sysRun_inv (E : String) (users : List String) (hnd : users.Nodup) :
    ∀ ops : List SysOp, (∀ op ∈ ops, op.user ∈ users) →
      (∀ op ∈ ops, actOK op.act = true) →
      ∀ st : SysState, sysInv E users st →
        sysInv E users (ops.foldl (sysStep E) st) := by
  intro ops
  induction ops with
  | nil =>
    intro _ _ st h
    exact h
  | cons op rest ih =>
    intro hu hok st h
    rw [List.foldl_cons]
    exact ih (fun o ho => hu o (List.mem_cons_of_mem op ho))
      (fun o ho => hok o (List.mem_cons_of_mem op ho))
      (sysStep E st op)
      (sysStep_inv E users hnd st op (hu op (List.mem_cons_self op rest))
        (hok op (List.mem_cons_self op rest)) h)

/-- C1: for every duplicate-free user list, every sequence of submit-vote
and cancel-vote operations by those users on one election E (submitted
candidate ids being nonempty Firestore document ids), starting from an
absent ElectionResult and empty votes documents, after the engine has
processed the diff of every resulting write in order, the stored
totalVotes equals the number of users whose current candidateId for E is
set, and each candidate's stored count equals the number of users
currently choosing that candidate. -/
theorem c1_conservation (E : String) (users : List String) (ops : List SysOp)
    (hnd : users.Nodup)
    (hu : ∀ op ∈ ops, op.user ∈ users)
    (hok : ∀ op ∈ ops, actOK op.act = true) :
    resTotal ((sysRun E ops).results E) = (countSet (sysRun E ops) E users : Int) ∧
    ∀ c, resCount ((sysRun E ops).results E) c =
      (countFor (sysRun E ops) E users c : Int) := by
  have h := sysRun_inv E users hnd ops hu hok initSys (sysInv_init E users)
  exact ⟨h.2.1, h.2.2⟩

/-- Witness for C1 on a concrete run: u1 votes A, u2 votes B, u1 switches
to B, u1 cancels. -/
theorem c1_conservation_witness :
    resTotal ((sysRun "e1" exOps).results "e1") =
      (countSet (sysRun "e1" exOps) "e1" exUsers : Int) ∧
    resCount ((sysRun "e1" exOps).results "e1") "B" =
      (countFor (sysRun "e1" exOps) "e1" exUsers "B" : Int) :=
  ⟨(c1_conservation "e1" exUsers exOps (by decide) (by decide) (by decide)).1,
   (c1_conservation "e1" exUsers exOps (by decide) (by decide) (by decide)).2 "B"⟩
